import Mathlib

/-!
Formal model of the schema-synchronization core of the `basic-cli` tool.

The model follows the TypeScript source:
* `src/lib/schema.ts` — the `Schema` data model, `compareVersions`, and the
  config-file accessor (`readSchemaFromConfig`, `saveSchemaToConfig`,
  `extractSchemaFromCode`, `updateSchemaInCode`, `generateConfigContent`);
* `src/commands/push.tsx` — `analyzePushAction` and the push state machine;
* `src/commands/pull.tsx` — `analyzePullAction` and the pull state machine;
* `src/commands/status.tsx` — `analyzeStatus`.

Remote collaborator calls (`validateSchema`, `compareSchema`) are modelled as
fixed answers: a resolved value or a thrown error (`CallOutcome`).  Analyzer
results additionally record which collaborator calls the control flow actually
awaited (`ApiCalls`), mirroring the `await` sites of the source branch by
branch.  JavaScript numbers are modelled as integers (no claim under study
depends on fractional or NaN behaviour), and JavaScript runtime values as the
inductive `JsVal`.
-/

namespace BasicCli

set_option linter.unusedVariables false

/-- A JavaScript/JSON runtime value as produced by `JSON.parse` or by the
restricted AST-to-object conversion `convertAstToObject` of the source
(string, number, boolean, null, array, object; numbers modelled as integers).
Object fields keep their textual order; property lookup takes the last
occurrence of a key, as in JavaScript object construction. -/
inductive JsVal where
  | null
  | bool (b : Bool)
  | num (n : Int)
  | str (s : List Char)
  | arr (elems : List JsVal)
  | obj (fields : List (List Char × JsVal))

/-- Property access `v[key]` on a JavaScript value: defined (and `undefined`
for a missing key, modelled as `none`) on objects; `undefined` on strings,
numbers, booleans and arrays for the schema-field names we use. -/
def JsVal.getProp (v : JsVal) (key : List Char) : Option JsVal :=
  match v with
  | .obj fields => (fields.reverse.find? (fun kv => kv.fst = key)).map (·.snd)
  | _ => none

/-- JavaScript truthiness of a possibly-undefined value (`none` is
`undefined`): `0`, the empty string, `false`, `null` and `undefined` are
falsy; every other value, including `[]` and even the empty object, is truthy. -/
def jsTruthy : Option JsVal → Bool
  | none => false
  | some .null => false
  | some (.bool b) => b
  | some (.num n) => n != 0
  | some (.str s) => s != []
  | some (.arr _) => true
  | some (.obj _) => true

/-- JavaScript `typeof x === 'number'` for a possibly-undefined value. -/
def jsTypeofNumber : Option JsVal → Bool
  | some (.num _) => true
  | _ => false

/-- JavaScript `typeof x === 'string'` for a possibly-undefined value. -/
def jsTypeofString : Option JsVal → Bool
  | some (.str _) => true
  | _ => false

/-- JavaScript `typeof x === 'object'` for a possibly-undefined value
(arrays and `null` also answer `'object'`). -/
def jsTypeofObject : Option JsVal → Bool
  | some (.obj _) => true
  | some (.arr _) => true
  | some .null => true
  | _ => false

/-- `FieldSchema` of `src/lib/types.ts`: a free-form type tag, an optional
`required` flag and an optional default value (the `params` of validation
errors and other unused optional fields are not modelled). -/
structure FieldSchema where
  type : String
  required : Option Bool := none
  default : Option JsVal := none

/-- Table kind: `'collection' | 'document'`. -/
inductive TableType where
  | collection
  | document
deriving DecidableEq, Repr

/-- `TableSchema` of `src/lib/types.ts`. -/
structure TableSchema where
  type : TableType
  fields : List (String × FieldSchema)

/-- `Schema` of `src/lib/types.ts`.  The TypeScript interface declares
`version : number`, but the code defends against a missing version
(`local.version || 0` in `compareVersions`), so the model makes it optional;
`none` is an absent field, defaulted to `0` everywhere the source does. -/
structure Schema where
  project_id : String
  version : Option Int
  tables : List (String × TableSchema)

/-- Result triple of `readSchemaFromConfig` as consumed by the analyzers. -/
structure LocalConfig where
  schema : Schema
  projectId : String
  filePath : String

/-- The status union of `compareVersions` in `src/lib/schema.ts`:
`'current' | 'ahead' | 'behind' | 'equal'` (the function never actually
returns `current`; the member exists only in the type). -/
inductive CmpStatus where
  | current
  | ahead
  | behind
  | equal
deriving DecidableEq, Repr

/-- Return value of `compareVersions`. -/
structure Comparison where
  status : CmpStatus
  localVersion : Int
  remoteVersion : Int
deriving DecidableEq, Repr

/-- `compareVersions` of `src/lib/schema.ts`: versions default to `0` when
missing (`local.version || 0`), equal versions give `equal`, a larger local
version gives `ahead`, otherwise `behind`.  Pure and total. -/
def compareVersions (localS remoteS : Schema) : Comparison :=
  let localVersion := localS.version.getD 0
  let remoteVersion := remoteS.version.getD 0
  let status : CmpStatus :=
    if localVersion = remoteVersion then .equal
    else if localVersion > remoteVersion then .ahead
    else .behind
  { status := status, localVersion := localVersion, remoteVersion := remoteVersion }

/-- `ValidationError` of `src/lib/types.ts` (`message` and `instancePath`;
the optional `params` object is never read by the code under study). -/
structure ValidationError where
  message : String
  instancePath : String
deriving DecidableEq, Repr

/-- `ValidationResult` of `src/lib/types.ts`: `valid : boolean` with an
optional `errors` array. -/
structure ValidationResult where
  valid : Bool
  errors : Option (List ValidationError)
deriving DecidableEq, Repr

/-- Result body of the remote content-comparison endpoint
(`compareSchema` returns `\x7b valid : boolean \x7d`). -/
structure CompareResult where
  valid : Bool
deriving DecidableEq, Repr

/-- Outcome of an awaited collaborator call: the resolved value, or a thrown
error carrying the JavaScript error message. -/
inductive CallOutcome (α : Type) where
  | ok (val : α)
  | err (msg : String)
deriving DecidableEq, Repr

/-- Fixed answers of the remote collaborators for one analysis pass: what
`apiClient.validateSchema` and `apiClient.compareSchema` would produce.  The
analyzers pass the same local schema to each call, so fixing the answers per
pass is faithful. -/
structure Api where
  validateSchema : CallOutcome ValidationResult
  compareSchema : CallOutcome CompareResult
deriving DecidableEq, Repr

/-- Instrumentation: which collaborator calls a run of an analyzer actually
awaited.  Set branch by branch exactly where the source has the
corresponding `await apiClient...` call. -/
structure ApiCalls where
  validateCalled : Bool
  compareCalled : Bool
deriving DecidableEq, Repr

/-- Canonical synchronization status.  The pull and status flows use the full
closed set; the push flow's own result type omits `conflict`. -/
inductive Status where
  | current
  | behind
  | ahead
  | conflict
  | invalid
  | noSchema
deriving DecidableEq, Repr

/-- Result record of `analyzePushAction` (`src/commands/push.tsx`), plus the
call instrumentation. -/
structure PushResult where
  status : Status
  projectId : String
  localVersion : Int
  remoteVersion : Int
  message : List String
  needsConfirmation : Bool
  confirmationTitle : String
  confirmationMessage : String
  validationErrors : Option (List ValidationError)
  calls : ApiCalls
deriving DecidableEq, Repr

/-- `analyzePushAction` of `src/commands/push.tsx` (lines 257-421),
transcribed branch by branch.  `remoteSchema` is a parameter of the source
function but is never read by its body. -/
def analyzePushAction (localConfig : LocalConfig) (remoteSchema : Schema)
    (comparison : Comparison) (api : Api) : PushResult :=
  let projectId := localConfig.projectId
  let mk (status : Status) (message : List String) (needsConfirmation : Bool)
      (confirmationTitle confirmationMessage : String)
      (validationErrors : Option (List ValidationError)) (calls : ApiCalls) : PushResult :=
    { status := status, projectId := projectId,
      localVersion := comparison.localVersion, remoteVersion := comparison.remoteVersion,
      message := message, needsConfirmation := needsConfirmation,
      confirmationTitle := confirmationTitle, confirmationMessage := confirmationMessage,
      validationErrors := validationErrors, calls := calls }
  match comparison.status with
  | .ahead =>
    match api.validateSchema with
    | .ok validation =>
      if !validation.valid && validation.errors.isSome then
        mk .invalid
          ["Errors found in schema! Please fix:",
           "Your local schema has validation errors that must be resolved before pushing."]
          false "" "" validation.errors ⟨true, false⟩
      else
        mk .ahead
          ["Your local schema is ahead of the remote version.",
           "Push your changes to publish them?"]
          true "Push Schema Changes"
          "This will publish your local schema changes to the remote project."
          none ⟨true, false⟩
    | .err msg =>
      mk .invalid
        ["Error validating schema: " ++ msg,
         "Please check your schema for syntax errors."]
        false "" "" none ⟨true, false⟩
  | .equal =>
    if comparison.localVersion = 0 ∧ comparison.remoteVersion = 0 then
      match api.validateSchema with
      | .ok validation =>
        if !validation.valid && validation.errors.isSome then
          mk .invalid
            ["Errors found in schema! Please fix:"]
            false "" "" validation.errors ⟨true, false⟩
        else
          mk .invalid
            ["Schema changes are valid!",
             "Please increment your version number to 1",
             "and run \x27basic push\x27 if you are ready to publish your changes."]
            false "" "" none ⟨true, false⟩
      | .err msg =>
        mk .invalid
          ["Error validating schema: " ++ msg]
          false "" "" none ⟨true, false⟩
    else
      match api.compareSchema with
      | .ok comparisonResult =>
        if comparisonResult.valid then
          mk .current
            ["Schema is up to date!", "No push needed."]
            false "" "" none ⟨false, true⟩
        else
          mk .invalid
            ["Your local schema differs from the remote schema.",
             "Please increment your version number before pushing changes."]
            false "" "" none ⟨false, true⟩
      | .err _ =>
        mk .current
          ["Schema appears to be up to date.",
           "(Unable to verify schema content - assuming current)"]
          false "" "" none ⟨false, true⟩
  | .behind =>
    mk .behind
      ["Your local schema is behind the remote version.",
       "Did you mean to pull instead?",
       "Use \x27basic pull\x27 to get the latest changes."]
      false "" "" none ⟨false, false⟩
  | .current =>
    mk .current
      ["Schema is up to date!", "No push needed."]
      false "" "" none ⟨false, false⟩

/-- Result record of `analyzePullAction` (`src/commands/pull.tsx`), plus the
call instrumentation. -/
structure PullResult where
  status : Status
  projectId : String
  localVersion : Int
  remoteVersion : Int
  message : List String
  needsConfirmation : Bool
  confirmationTitle : String
  confirmationMessage : String
  calls : ApiCalls
deriving DecidableEq, Repr

/-- `analyzePullAction` of `src/commands/pull.tsx` (lines 261-378),
transcribed branch by branch.  `remoteSchema` is a parameter of the source
function but is never read by its body. -/
def analyzePullAction (localConfig : LocalConfig) (remoteSchema : Schema)
    (comparison : Comparison) (api : Api) : PullResult :=
  let projectId := localConfig.projectId
  let mk (status : Status) (message : List String) (needsConfirmation : Bool)
      (confirmationTitle confirmationMessage : String) (calls : ApiCalls) : PullResult :=
    { status := status, projectId := projectId,
      localVersion := comparison.localVersion, remoteVersion := comparison.remoteVersion,
      message := message, needsConfirmation := needsConfirmation,
      confirmationTitle := confirmationTitle, confirmationMessage := confirmationMessage,
      calls := calls }
  match comparison.status with
  | .behind =>
    mk .behind
      ["Your local schema is behind the remote version.",
       "Pull the latest changes?"]
      true "Pull Remote Schema"
      "This will update your local schema to the latest version."
      ⟨false, false⟩
  | .equal =>
    if comparison.localVersion = 0 ∧ comparison.remoteVersion = 0 then
      mk .current
        ["Schema is up to date!", "No pull needed."]
        false "" "" ⟨false, false⟩
    else
      match api.compareSchema with
      | .ok comparisonResult =>
        if comparisonResult.valid then
          mk .current
            ["Schema is up to date!", "No pull needed."]
            false "" "" ⟨false, true⟩
        else
          mk .conflict
            ["Schema conflicts detected!",
             "Your local schema differs from the remote schema at the same version.",
             "Pull the remote version to override local changes?"]
            true "Override Local Changes"
            "This will replace your local schema with the remote version."
            ⟨false, true⟩
      | .err _ =>
        mk .current
          ["Schema is up to date!", "No pull needed.",
           "(Unable to verify schema content - assuming current)"]
          false "" "" ⟨false, true⟩
  | .ahead =>
    mk .ahead
      ["Your local schema is ahead of the remote version.",
       "Did you mean to push instead?",
       "Use \x27basic push\x27 to publish your changes."]
      false "" "" ⟨false, false⟩
  | .current =>
    mk .current
      ["Schema is up to date!", "No pull needed."]
      false "" "" ⟨false, false⟩

/-- Result record of `analyzeStatus` (`src/commands/status.tsx`), plus the
call instrumentation (the optional `projectName` of the source interface is
never assigned by `analyzeStatus` and is omitted). -/
structure StatusResult where
  status : Status
  projectId : String
  localVersion : Int
  remoteVersion : Int
  message : List String
  suggestions : List String
  validationErrors : Option (List ValidationError)
  calls : ApiCalls
deriving DecidableEq, Repr

/-- `analyzeStatus` of `src/commands/status.tsx` (lines 158-366), transcribed
branch by branch.  Its base message starts with the project id and, when the
remote version is positive, a remote-version line. -/
def analyzeStatus (localConfig : LocalConfig) (remoteSchema : Schema)
    (comparison : Comparison) (api : Api) : StatusResult :=
  let projectId := localConfig.projectId
  let baseMessage : List String :=
    if comparison.remoteVersion > 0 then
      ["Project ID: " ++ projectId,
       "Remote schema version: " ++ toString comparison.remoteVersion]
    else
      ["Project ID: " ++ projectId]
  let mk (status : Status) (message : List String) (suggestions : List String)
      (validationErrors : Option (List ValidationError)) (calls : ApiCalls) : StatusResult :=
    { status := status, projectId := projectId,
      localVersion := comparison.localVersion, remoteVersion := comparison.remoteVersion,
      message := baseMessage ++ message, suggestions := suggestions,
      validationErrors := validationErrors, calls := calls }
  match comparison.status with
  | .behind =>
    mk .behind
      ["Schema is out of date! Current: " ++ toString comparison.localVersion ++
         ", Latest: " ++ toString comparison.remoteVersion]
      ["Run \x27basic pull\x27 to update your local schema",
       "Review the changes before pulling if you have local modifications",
       "Consider backing up your current schema if you have unsaved work"]
      none ⟨false, false⟩
  | .ahead =>
    match api.validateSchema with
    | .ok validation =>
      if !validation.valid && validation.errors.isSome then
        mk .invalid
          ["Changes found: Local schema version " ++ toString comparison.localVersion ++
             " is ahead of remote version " ++ toString comparison.remoteVersion,
           "Errors found in schema! Please fix:"]
          ["Fix the validation errors shown below",
           "Run \x27basic status\x27 again after fixing errors",
           "Review your schema syntax and field definitions"]
          validation.errors ⟨true, false⟩
      else
        mk .ahead
          ["Changes found: Local schema version " ++ toString comparison.localVersion ++
             " is ahead of remote version " ++ toString comparison.remoteVersion,
           "Schema changes are valid!"]
          ["Run \x27basic push\x27 to publish your changes",
           "Review your changes before publishing",
           "Test your schema locally if possible"]
          none ⟨true, false⟩
    | .err msg =>
      mk .invalid
        ["Error validating schema: " ++ msg]
        ["Check your schema for syntax errors",
         "Ensure all required fields are present",
         "Verify your basic.config file is valid JSON/JavaScript"]
        none ⟨true, false⟩
  | .equal =>
    if comparison.localVersion = 0 ∧ comparison.remoteVersion = 0 then
      match api.validateSchema with
      | .ok validation =>
        if !validation.valid && validation.errors.isSome then
          mk .invalid
            ["Errors found in schema! Please fix:"]
            ["Fix the validation errors shown below",
             "Run \x27basic status\x27 again after fixing errors"]
            validation.errors ⟨true, false⟩
        else
          mk .ahead
            ["",
             "Schema changes are valid!",
             "Please increment your version number to 1",
             "and run \x27basic push\x27 if you are ready to publish your changes."]
            ["Update the version field in your schema from 0 to 1",
             "Run \x27basic push\x27 after incrementing the version",
             "Ensure your schema changes are tested and ready for production"]
            none ⟨true, false⟩
      | .err msg =>
        mk .invalid
          ["Error validating schema: " ++ msg]
          ["Check your schema for syntax errors"]
          none ⟨true, false⟩
    else
      match api.compareSchema with
      | .ok comparisonResult =>
        if comparisonResult.valid then
          mk .current
            ["Schema is up to date!"]
            ["Continue working on your project",
             "Make schema modifications if needed",
             "Run \x27basic status\x27 again after making changes"]
            none ⟨false, true⟩
        else
          mk .conflict
            ["",
             "Schema conflicts found! Your local schema is different from the remote schema."]
            ["Run \x27basic pull\x27 to override local changes with remote schema",
             "Or increment the version number in your local schema",
             "Compare your local changes with the remote version before deciding",
             "Consider creating a backup of your local changes"]
            none ⟨false, true⟩
      | .err msg =>
        mk .invalid
          ["Error checking schema conflict: " ++ msg]
          ["Check your network connection",
           "Ensure the project ID is correct"]
          none ⟨false, true⟩
  | .current =>
    mk .invalid
      ["Unknown schema status"]
      ["Try running \x27basic status\x27 again"]
      none ⟨false, false⟩

/-- The yes/no selector of the confirmation dialogs (`selectedOption`). -/
inductive SelOpt where
  | yes
  | no
deriving DecidableEq, Repr

/-- Key events relevant to the confirmation dialogs: arrow keys toggle the
selection, the return key confirms, escape and the letter q cancel. -/
inductive KeyEvent where
  | upArrow
  | downArrow
  | ret
  | escape
  | qKey
deriving DecidableEq, Repr

/-- Phases of the push flow (`PushState.phase` in `src/commands/push.tsx`). -/
inductive PushPhase where
  | checking
  | confirming
  | pushing
  | success
  | error
  | noAction
deriving DecidableEq, Repr

/-- State of the push flow: the phase and the currently selected option. -/
structure PushMachine where
  phase : PushPhase
  selected : SelOpt
deriving DecidableEq, Repr

/-- Events driving the push flow: completion of the checking effect, a key
press, and resolution of the asynchronous push in `handlePush` (`true` when
the re-read and the remote push succeeded, `false` when any step threw). -/
inductive PushEvent where
  | checked
  | key (k : KeyEvent)
  | pushResolved (ok : Bool)
deriving DecidableEq, Repr

/-- One transition of the push flow of `PushApp` (`src/commands/push.tsx`):
after `checking`, the phase becomes `confirming` exactly when the analyzed
result needs confirmation and `no-action` otherwise; `useInput` reacts only
in the `confirming` phase (arrows toggle, return runs `handlePush` when yes
is selected and cancels otherwise, escape and q cancel); `handlePush` moves
to `pushing` and resolves to `success` or `error`.  All other phases are
terminal. -/
def pushStep (result : PushResult) (st : PushMachine) (ev : PushEvent) : PushMachine :=
  match st.phase, ev with
  | .checking, .checked =>
    { st with phase := if result.needsConfirmation then .confirming else .noAction }
  | .confirming, .key .upArrow =>
    { st with selected := if st.selected = .yes then .no else .yes }
  | .confirming, .key .downArrow =>
    { st with selected := if st.selected = .yes then .no else .yes }
  | .confirming, .key .ret =>
    if st.selected = .yes then { st with phase := .pushing }
    else { st with phase := .noAction }
  | .confirming, .key .escape => { st with phase := .noAction }
  | .confirming, .key .qKey => { st with phase := .noAction }
  | .pushing, .pushResolved true => { st with phase := .success }
  | .pushing, .pushResolved false => { st with phase := .error }
  | _, _ => st

/-- Run the push flow from its initial state over a list of events. -/
def runPush (result : PushResult) (events : List PushEvent) : PushMachine :=
  events.foldl (pushStep result) { phase := .checking, selected := .yes }

/-- Phases of the pull flow (`PullState.phase` in `src/commands/pull.tsx`). -/
inductive PullPhase where
  | checking
  | confirming
  | pulling
  | success
  | error
  | noAction
deriving DecidableEq, Repr

/-- State of the pull flow over an abstract local-config-store state `α`:
phase, selected option, the store contents, and how many times the
save-schema operation ran. -/
structure PullMachine (α : Type) where
  phase : PullPhase
  selected : SelOpt
  file : α
  saves : Nat

/-- Events driving the pull flow: completion of the checking effect, a key
press, and resolution of the asynchronous pull in `handlePull` (`true` when
re-read, re-fetch and `saveSchemaToConfig` all succeeded). -/
inductive PullEvent where
  | checked
  | key (k : KeyEvent)
  | pullResolved (ok : Bool)
deriving DecidableEq, Repr

/-- One transition of the pull flow of `PullApp` (`src/commands/pull.tsx`):
identical confirmation wiring to the push flow; on a confirmed pull,
`handlePull` enters `pulling` and, when it resolves successfully, writes the
re-fetched remote schema to the local config store (`saveFn`) and reports
`success`; cancelling (selecting no, escape, or q) moves to `no-action`
without touching the store. -/
def pullStep {α : Type} (result : PullResult) (saveFn : α → α)
    (st : PullMachine α) (ev : PullEvent) : PullMachine α :=
  match st.phase, ev with
  | .checking, .checked =>
    { st with phase := if result.needsConfirmation then .confirming else .noAction }
  | .confirming, .key .upArrow =>
    { st with selected := if st.selected = .yes then .no else .yes }
  | .confirming, .key .downArrow =>
    { st with selected := if st.selected = .yes then .no else .yes }
  | .confirming, .key .ret =>
    if st.selected = .yes then { st with phase := .pulling }
    else { st with phase := .noAction }
  | .confirming, .key .escape => { st with phase := .noAction }
  | .confirming, .key .qKey => { st with phase := .noAction }
  | .pulling, .pullResolved true =>
    { st with phase := .success, file := saveFn st.file, saves := st.saves + 1 }
  | .pulling, .pullResolved false => { st with phase := .error }
  | _, _ => st

/-- Run the pull flow from its initial state over a list of events, starting
from store contents `f0`. -/
def runPull {α : Type} (result : PullResult) (saveFn : α → α) (f0 : α)
    (events : List PullEvent) : PullMachine α :=
  events.foldl (pullStep result saveFn)
    { phase := .checking, selected := .yes, file := f0, saves := 0 }

/-- The remote validation call resolved and was not an explicit failure
report: it did not answer valid:false together with a present errors array.
This is exactly the condition under which the ahead branches of the push and
status analyzers keep the `ahead` verdict. -/
def validationPasses (api : Api) : Bool :=
  match api.validateSchema with
  | .ok v => !(!v.valid && v.errors.isSome)
  | .err _ => false

/-- Concrete schema fixture at a given version. -/
def schemaAt (n : Int) : Schema :=
  { project_id := "p1", version := some n, tables := [] }

/-- Concrete local-config fixture at a given version. -/
def cfgAt (n : Int) : LocalConfig :=
  { schema := schemaAt n, projectId := "p1", filePath := "basic.config.ts" }

/-- Collaborator answers: validation resolves valid, contents match. -/
def apiAllOk : Api :=
  { validateSchema := .ok { valid := true, errors := none },
    compareSchema := .ok { valid := true } }

/-- Collaborator answers: validation resolves valid, content comparison
reports differing contents. -/
def apiCompareFalse : Api :=
  { validateSchema := .ok { valid := true, errors := none },
    compareSchema := .ok { valid := false } }

/-- Collaborator answers: validation resolves valid, content comparison
throws (network failure). -/
def apiCompareThrows : Api :=
  { validateSchema := .ok { valid := true, errors := none },
    compareSchema := .err "Network error" }

theorem compareVersions_equal {l r : Schema} (h : l.version.getD 0 = r.version.getD 0) :
    compareVersions l r =
      { status := .equal, localVersion := l.version.getD 0,
        remoteVersion := r.version.getD 0 } := by
  simp [compareVersions, h]

theorem compareVersions_ahead {l r : Schema} (h : r.version.getD 0 < l.version.getD 0) :
    compareVersions l r =
      { status := .ahead, localVersion := l.version.getD 0,
        remoteVersion := r.version.getD 0 } := by
  have hne : ¬ l.version.getD 0 = r.version.getD 0 := by omega
  simp [compareVersions, hne, h]

theorem compareVersions_behind {l r : Schema} (h : l.version.getD 0 < r.version.getD 0) :
    compareVersions l r =
      { status := .behind, localVersion := l.version.getD 0,
        remoteVersion := r.version.getD 0 } := by
  have hne : ¬ l.version.getD 0 = r.version.getD 0 := by omega
  have hngt : ¬ l.version.getD 0 > r.version.getD 0 := by omega
  simp [compareVersions, hne, hngt]

/-- C7: `compareVersions` is a total pure function: the returned versions
default missing fields to 0, the status is `ahead`, `behind` or `equal`
exactly as the local version is greater than, less than or equal to the
remote one, and the fourth member `current` of its result type is never
produced.  Being a total Lean function, no input makes it fail. -/
theorem compareVersions_totality (localS remoteS : Schema) :
    (compareVersions localS remoteS).localVersion = localS.version.getD 0 ∧
    (compareVersions localS remoteS).remoteVersion = remoteS.version.getD 0 ∧
    ((compareVersions localS remoteS).status = .ahead ↔
      remoteS.version.getD 0 < localS.version.getD 0) ∧
    ((compareVersions localS remoteS).status = .behind ↔
      localS.version.getD 0 < remoteS.version.getD 0) ∧
    ((compareVersions localS remoteS).status = .equal ↔
      localS.version.getD 0 = remoteS.version.getD 0) ∧
    (compareVersions localS remoteS).status ≠ .current := by
  rcases lt_trichotomy (localS.version.getD 0) (remoteS.version.getD 0) with h | h | h
  · rw [compareVersions_behind h]
    refine ⟨rfl, rfl, ?_, ?_, ?_, ?_⟩ <;> simp <;> omega
  · rw [compareVersions_equal h]
    refine ⟨rfl, rfl, ?_, ?_, ?_, ?_⟩ <;> simp <;> omega
  · rw [compareVersions_ahead h]
    refine ⟨rfl, rfl, ?_, ?_, ?_, ?_⟩ <;> simp <;> omega

/-- C1 (amended): with the comparison computed from the pair as the flows do,
the push, pull and status analyzers agree on the canonical status exactly
when the comparator reports behind, or ahead with the remote validation
passing, or equal at a nonzero version with the content comparison resolving
to a match.  In every other refinement case (equal at version 0, equal
nonzero with mismatching or unverifiable contents, ahead with failing or
unavailable validation) at least two of the three flows disagree. -/
theorem analyzerAgreement_iff (cfg : LocalConfig) (rem : Schema) (api : Api) :
    ((analyzePushAction cfg rem (compareVersions cfg.schema rem) api).status =
        (analyzePullAction cfg rem (compareVersions cfg.schema rem) api).status ∧
      (analyzePullAction cfg rem (compareVersions cfg.schema rem) api).status =
        (analyzeStatus cfg rem (compareVersions cfg.schema rem) api).status) ↔
      ((compareVersions cfg.schema rem).status = .behind ∨
        ((compareVersions cfg.schema rem).status = .ahead ∧ validationPasses api = true) ∨
        ((compareVersions cfg.schema rem).status = .equal ∧
          cfg.schema.version.getD 0 ≠ 0 ∧
          api.compareSchema = .ok { valid := true })) := by
  rcases lt_trichotomy (cfg.schema.version.getD 0) (rem.version.getD 0) with h | h | h
  · rw [compareVersions_behind h]
    simp [analyzePushAction, analyzePullAction, analyzeStatus]
  · rw [compareVersions_equal h]
    by_cases h0 : cfg.schema.version.getD 0 = 0
    · have h0r : rem.version.getD 0 = 0 := by omega
      rcases hv : api.validateSchema with v | m
      · cases hg : (!v.valid && v.errors.isSome) <;>
          simp [analyzePushAction, analyzePullAction, analyzeStatus, hv, hg, h0, h0r]
      · simp [analyzePushAction, analyzePullAction, analyzeStatus, hv, h0, h0r]
    · have h0r : ¬ rem.version.getD 0 = 0 := by omega
      rcases hc : api.compareSchema with c | m
      · rcases c with ⟨cv⟩
        cases cv <;>
          simp [analyzePushAction, analyzePullAction, analyzeStatus, hc, h0, h0r]
      · simp [analyzePushAction, analyzePullAction, analyzeStatus, hc, h0, h0r]
  · rw [compareVersions_ahead h]
    rcases hv : api.validateSchema with v | m
    · cases hg : (!v.valid && v.errors.isSome) <;>
        simp [analyzePushAction, analyzePullAction, analyzeStatus, validationPasses, hv, hg]
    · simp [analyzePushAction, analyzePullAction, analyzeStatus, validationPasses, hv]

/-- C1 counterexample: local and remote both at version 0 with a structurally
valid schema (validation resolves valid, comparison resolves a match): the
push flow answers `invalid` while the pull flow answers `current`, so the
three flows do not compute the same canonical status. -/
theorem analyzerAgreement_cex :
    (analyzePushAction (cfgAt 0) (schemaAt 0)
        (compareVersions (cfgAt 0).schema (schemaAt 0)) apiAllOk).status ≠
      (analyzePullAction (cfgAt 0) (schemaAt 0)
        (compareVersions (cfgAt 0).schema (schemaAt 0)) apiAllOk).status := by
  decide

/-- C2 (amended): at local and remote version 0 with the remote validation
resolving valid, the push flow answers `invalid` and the status flow answers
`ahead`, both carrying the instruction to increment the version number
before publishing — neither answers `current` — but the pull flow answers
`current` without consulting validation at all. -/
theorem versionZero_requiresBump (cfg : LocalConfig) (rem : Schema) (api : Api)
    (v : ValidationResult)
    (h0 : cfg.schema.version.getD 0 = 0) (h0r : rem.version.getD 0 = 0)
    (hv : api.validateSchema = .ok v) (hvalid : v.valid = true) :
    (analyzePushAction cfg rem (compareVersions cfg.schema rem) api).status = .invalid ∧
    "Please increment your version number to 1" ∈
      (analyzePushAction cfg rem (compareVersions cfg.schema rem) api).message ∧
    (analyzeStatus cfg rem (compareVersions cfg.schema rem) api).status = .ahead ∧
    "Please increment your version number to 1" ∈
      (analyzeStatus cfg rem (compareVersions cfg.schema rem) api).message ∧
    (analyzePullAction cfg rem (compareVersions cfg.schema rem) api).status = .current := by
  have h : cfg.schema.version.getD 0 = rem.version.getD 0 := by omega
  rw [compareVersions_equal h]
  have hg : (!v.valid && v.errors.isSome) = false := by simp [hvalid]
  simp [analyzePushAction, analyzePullAction, analyzeStatus, hv, hg, h0, h0r]

/-- Witness for the amended C2 at concrete inputs. -/
theorem versionZero_requiresBump_witness :
    (analyzePushAction (cfgAt 0) (schemaAt 0)
        (compareVersions (cfgAt 0).schema (schemaAt 0)) apiAllOk).status = .invalid ∧
    (analyzePullAction (cfgAt 0) (schemaAt 0)
        (compareVersions (cfgAt 0).schema (schemaAt 0)) apiAllOk).status = .current := by
  have h := versionZero_requiresBump (cfgAt 0) (schemaAt 0) apiAllOk
    { valid := true, errors := none } (by decide) (by decide) (by decide) (by decide)
  exact ⟨h.1, h.2.2.2.2⟩

/-- C2 counterexample: at local and remote version 0 with a structurally
valid schema the pull flow does answer `current`, contradicting the claim
that none of the three flows does. -/
theorem versionZero_pullCurrent_cex :
    (analyzePullAction (cfgAt 0) (schemaAt 0)
        (compareVersions (cfgAt 0).schema (schemaAt 0)) apiAllOk).status = .current := by
  decide

/-- C3 (amended): when the collaborator calls throw, a validation failure
degrades to `invalid` on both the push and status paths (comparator ahead,
or equal at version 0), but a content-comparison failure at an equal nonzero
version is reinterpreted as `current` by both the push and pull flows (with
an unable-to-verify message); only the status flow surfaces it as
`invalid`. -/
theorem collaboratorFailure_degradation (cfg : LocalConfig) (rem : Schema) (api : Api)
    (msgV msgC : String)
    (hv : api.validateSchema = .err msgV) (hc : api.compareSchema = .err msgC) :
    ((rem.version.getD 0 < cfg.schema.version.getD 0 ∨
        (cfg.schema.version.getD 0 = 0 ∧ rem.version.getD 0 = 0)) →
      (analyzePushAction cfg rem (compareVersions cfg.schema rem) api).status = .invalid ∧
      (analyzeStatus cfg rem (compareVersions cfg.schema rem) api).status = .invalid) ∧
    ((cfg.schema.version.getD 0 = rem.version.getD 0 ∧ cfg.schema.version.getD 0 ≠ 0) →
      (analyzePushAction cfg rem (compareVersions cfg.schema rem) api).status = .current ∧
      "(Unable to verify schema content - assuming current)" ∈
        (analyzePushAction cfg rem (compareVersions cfg.schema rem) api).message ∧
      (analyzePullAction cfg rem (compareVersions cfg.schema rem) api).status = .current ∧
      (analyzeStatus cfg rem (compareVersions cfg.schema rem) api).status = .invalid) := by
  constructor
  · rintro (h | ⟨h0, h0r⟩)
    · rw [compareVersions_ahead h]
      simp [analyzePushAction, analyzeStatus, hv]
    · have h : cfg.schema.version.getD 0 = rem.version.getD 0 := by omega
      rw [compareVersions_equal h]
      simp [analyzePushAction, analyzeStatus, hv, h0, h0r]
  · rintro ⟨h, h0⟩
    have h0r : ¬ rem.version.getD 0 = 0 := by omega
    rw [compareVersions_equal h]
    simp [analyzePushAction, analyzePullAction, analyzeStatus, hc, h0, h0r]

/-- Witness for the amended C3 at concrete inputs (equal nonzero versions,
comparison call throwing, validation call throwing). -/
theorem collaboratorFailure_degradation_witness :
    (analyzePushAction (cfgAt 4) (schemaAt 4)
        (compareVersions (cfgAt 4).schema (schemaAt 4))
        { validateSchema := .err "boom", compareSchema := .err "boom" }).status = .current := by
  have h := collaboratorFailure_degradation (cfgAt 4) (schemaAt 4)
    { validateSchema := .err "boom", compareSchema := .err "boom" } "boom" "boom"
    (by decide) (by decide)
  exact (h.2 (by decide)).1

/-- C3 counterexample: at equal nonzero versions with the content-comparison
call throwing, the push analyzer answers `current`, contradicting the claim
that a failed collaborator call is never reinterpreted as `current`. -/
theorem compareFailure_pushCurrent_cex :
    (analyzePushAction (cfgAt 4) (schemaAt 4)
        (compareVersions (cfgAt 4).schema (schemaAt 4)) apiCompareThrows).status = .current := by
  decide

/-- C4 (amended): at equal nonzero versions, every flow consults the remote
content-comparison collaborator, and when it reports differing contents the
pull and status flows answer `conflict` while the push flow answers
`invalid` (its result type has no `conflict`); none of the three answers
`current`. -/
theorem equalNonzero_mismatch_conflict (cfg : LocalConfig) (rem : Schema) (api : Api)
    (heq : cfg.schema.version.getD 0 = rem.version.getD 0)
    (hpos : 0 < cfg.schema.version.getD 0) :
    ((analyzePushAction cfg rem (compareVersions cfg.schema rem) api).calls.compareCalled = true ∧
      (analyzePullAction cfg rem (compareVersions cfg.schema rem) api).calls.compareCalled = true ∧
      (analyzeStatus cfg rem (compareVersions cfg.schema rem) api).calls.compareCalled = true) ∧
    (api.compareSchema = .ok { valid := false } →
      (analyzePushAction cfg rem (compareVersions cfg.schema rem) api).status = .invalid ∧
      (analyzePullAction cfg rem (compareVersions cfg.schema rem) api).status = .conflict ∧
      (analyzeStatus cfg rem (compareVersions cfg.schema rem) api).status = .conflict ∧
      (analyzePushAction cfg rem (compareVersions cfg.schema rem) api).status ≠ .current ∧
      (analyzePullAction cfg rem (compareVersions cfg.schema rem) api).status ≠ .current ∧
      (analyzeStatus cfg rem (compareVersions cfg.schema rem) api).status ≠ .current) := by
  have h0 : ¬ cfg.schema.version.getD 0 = 0 := by omega
  have h0r : ¬ rem.version.getD 0 = 0 := by omega
  rw [compareVersions_equal heq]
  constructor
  · rcases hc : api.compareSchema with c | m
    · rcases c with ⟨cv⟩
      cases cv <;>
        simp [analyzePushAction, analyzePullAction, analyzeStatus, hc, h0, h0r]
    · simp [analyzePushAction, analyzePullAction, analyzeStatus, hc, h0, h0r]
  · intro hc
    simp [analyzePushAction, analyzePullAction, analyzeStatus, hc, h0, h0r]

/-- Witness for the amended C4 at concrete inputs (version 4 on both sides,
comparison reporting differing contents). -/
theorem equalNonzero_mismatch_conflict_witness :
    (analyzePullAction (cfgAt 4) (schemaAt 4)
        (compareVersions (cfgAt 4).schema (schemaAt 4)) apiCompareFalse).status = .conflict := by
  have h := equalNonzero_mismatch_conflict (cfgAt 4) (schemaAt 4) apiCompareFalse
    (by decide) (by decide)
  exact (h.2 (by decide)).2.1

/-- C4 counterexample: at equal nonzero versions with differing contents the
push analyzer answers `invalid`, not `conflict` as the claim asserts for
every analyzer. -/
theorem equalNonzero_pushNotConflict_cex :
    (analyzePushAction (cfgAt 4) (schemaAt 4)
        (compareVersions (cfgAt 4).schema (schemaAt 4)) apiCompareFalse).status ≠ .conflict := by
  decide

/-- C10: a validation response with valid:false but an absent errors array is
treated exactly like a valid response: with the comparator reporting ahead,
the push analyzer still answers `ahead` with needs-confirmation and the
status analyzer still answers `ahead`, and both analyzers produce outputs
identical to those for a valid:true response. -/
theorem validFalseWithoutErrors_treatedValid (cfg : LocalConfig) (rem : Schema) (api : Api)
    (hv : api.validateSchema = .ok { valid := false, errors := none })
    (hahead : rem.version.getD 0 < cfg.schema.version.getD 0) :
    (analyzePushAction cfg rem (compareVersions cfg.schema rem) api).status = .ahead ∧
    (analyzePushAction cfg rem (compareVersions cfg.schema rem) api).needsConfirmation = true ∧
    (analyzeStatus cfg rem (compareVersions cfg.schema rem) api).status = .ahead ∧
    analyzePushAction cfg rem (compareVersions cfg.schema rem) api =
      analyzePushAction cfg rem (compareVersions cfg.schema rem)
        { validateSchema := .ok { valid := true, errors := none },
          compareSchema := api.compareSchema } ∧
    analyzeStatus cfg rem (compareVersions cfg.schema rem) api =
      analyzeStatus cfg rem (compareVersions cfg.schema rem)
        { validateSchema := .ok { valid := true, errors := none },
          compareSchema := api.compareSchema } := by
  rw [compareVersions_ahead hahead]
  simp [analyzePushAction, analyzeStatus, hv]

/-- Witness for C10 at concrete inputs (local version 2, remote version 1,
validation answering valid:false with no errors array). -/
theorem validFalseWithoutErrors_treatedValid_witness :
    (analyzePushAction (cfgAt 2) (schemaAt 1)
        (compareVersions (cfgAt 2).schema (schemaAt 1))
        { validateSchema := .ok { valid := false, errors := none },
          compareSchema := .ok { valid := true } }).status = .ahead := by
  have h := validFalseWithoutErrors_treatedValid (cfgAt 2) (schemaAt 1)
    { validateSchema := .ok { valid := false, errors := none },
      compareSchema := .ok { valid := true } }
    (by decide) (by decide)
  exact h.1

theorem push_needsConfirmation_iff (cfg : LocalConfig) (rem : Schema)
    (cmp : Comparison) (api : Api) :
    (analyzePushAction cfg rem cmp api).needsConfirmation = true ↔
      (analyzePushAction cfg rem cmp api).status = .ahead := by
  rcases cmp with ⟨cs, lv, rv⟩
  cases cs
  · simp [analyzePushAction]
  · rcases hv : api.validateSchema with v | m
    · cases hg : (!v.valid && v.errors.isSome) <;> simp [analyzePushAction, hv, hg]
    · simp [analyzePushAction, hv]
  · simp [analyzePushAction]
  · by_cases h0 : lv = 0 ∧ rv = 0
    · rcases hv : api.validateSchema with v | m
      · cases hg : (!v.valid && v.errors.isSome) <;> simp [analyzePushAction, hv, hg, h0]
      · simp [analyzePushAction, hv, h0]
    · rcases hc : api.compareSchema with c | m
      · rcases c with ⟨cv⟩
        cases cv <;> simp [analyzePushAction, hc, h0]
      · simp [analyzePushAction, hc, h0]

theorem pushStep_keeps_unconfirmed {r : PushResult} (h : r.needsConfirmation = false)
    {st : PushMachine} (hst : st.phase = .checking ∨ st.phase = .noAction)
    (ev : PushEvent) :
    (pushStep r st ev).phase = .checking ∨ (pushStep r st ev).phase = .noAction := by
  rcases st with ⟨ph, sel⟩
  rcases hst with h1 | h1 <;> cases h1
  · rcases ev with _ | k | ok
    · simp [pushStep, h]
    · cases k <;> simp [pushStep]
    · cases ok <;> simp [pushStep]
  · rcases ev with _ | k | ok
    · simp [pushStep]
    · cases k <;> simp [pushStep]
    · cases ok <;> simp [pushStep]

theorem runPush_unconfirmed_phases {r : PushResult} (h : r.needsConfirmation = false)
    (events : List PushEvent) :
    (runPush r events).phase = .checking ∨ (runPush r events).phase = .noAction := by
  have H : ∀ st : PushMachine, (st.phase = .checking ∨ st.phase = .noAction) →
      ((events.foldl (pushStep r) st).phase = .checking ∨
        (events.foldl (pushStep r) st).phase = .noAction) := by
    induction events with
    | nil => exact fun st hst => hst
    | cons e es ih => exact fun st hst => ih _ (pushStep_keeps_unconfirmed h hst e)
  exact H _ (Or.inl rfl)

/-- C5: in the push flow, the analyzed result needs confirmation exactly when
its status is `ahead` (every other status resolves to the terminal no-action
phase), and when the version comparator reports `behind`, no sequence of
events can drive the push state machine into the `pushing` phase. -/
theorem push_confirmIffAhead_and_behindNeverPushes (cfg : LocalConfig) (rem : Schema)
    (api : Api) (events : List PushEvent) :
    ((analyzePushAction cfg rem (compareVersions cfg.schema rem) api).needsConfirmation = true ↔
      (analyzePushAction cfg rem (compareVersions cfg.schema rem) api).status = .ahead) ∧
    ((compareVersions cfg.schema rem).status = .behind →
      (runPush (analyzePushAction cfg rem (compareVersions cfg.schema rem) api)
          events).phase ≠ .pushing) := by
  refine ⟨push_needsConfirmation_iff cfg rem _ api, ?_⟩
  intro hbehind
  have hnc : (analyzePushAction cfg rem (compareVersions cfg.schema rem) api).needsConfirmation
      = false := by
    simp [analyzePushAction, hbehind]
  rcases runPush_unconfirmed_phases hnc events with h1 | h1 <;> simp [h1]

/-- Witness for C5: a behind pair (local version 1, remote version 2) with the
user even pressing return never reaches the pushing phase. -/
theorem push_behindNeverPushes_witness :
    (runPush (analyzePushAction (cfgAt 1) (schemaAt 2)
        (compareVersions (cfgAt 1).schema (schemaAt 2)) apiAllOk)
      [.checked, .key .ret]).phase ≠ .pushing :=
  (push_confirmIffAhead_and_behindNeverPushes (cfgAt 1) (schemaAt 2) apiAllOk
    [.checked, .key .ret]).2 (by decide)

theorem pull_needsConfirmation_iff (cfg : LocalConfig) (rem : Schema)
    (cmp : Comparison) (api : Api) :
    (analyzePullAction cfg rem cmp api).needsConfirmation = true ↔
      ((analyzePullAction cfg rem cmp api).status = .behind ∨
        (analyzePullAction cfg rem cmp api).status = .conflict) := by
  rcases cmp with ⟨cs, lv, rv⟩
  cases cs
  · simp [analyzePullAction]
  · simp [analyzePullAction]
  · simp [analyzePullAction]
  · by_cases h0 : lv = 0 ∧ rv = 0
    · simp [analyzePullAction, h0]
    · rcases hc : api.compareSchema with c | m
      · rcases c with ⟨cv⟩
        cases cv <;> simp [analyzePullAction, hc, h0]
      · simp [analyzePullAction, hc, h0]

theorem pullStep_frame {α : Type} (r : PullResult) (saveFn : α → α) (f0 : α)
    (st : PullMachine α) (ev : PullEvent)
    (hst : (st.phase = .checking ∨ st.phase = .confirming ∨ st.phase = .noAction) →
      st.file = f0 ∧ st.saves = 0) :
    ((pullStep r saveFn st ev).phase = .checking ∨
      (pullStep r saveFn st ev).phase = .confirming ∨
      (pullStep r saveFn st ev).phase = .noAction) →
    (pullStep r saveFn st ev).file = f0 ∧ (pullStep r saveFn st ev).saves = 0 := by
  rcases st with ⟨ph, sel, f, sv⟩
  cases ph
  · obtain ⟨hf, hs⟩ := hst (Or.inl rfl)
    rcases ev with _ | k | ok
    · exact fun _ => ⟨hf, hs⟩
    · cases k <;> exact fun _ => ⟨hf, hs⟩
    · cases ok <;> exact fun _ => ⟨hf, hs⟩
  · obtain ⟨hf, hs⟩ := hst (Or.inr (Or.inl rfl))
    rcases ev with _ | k | ok
    · exact fun _ => ⟨hf, hs⟩
    · cases k
      · exact fun _ => ⟨hf, hs⟩
      · exact fun _ => ⟨hf, hs⟩
      · by_cases hsel : sel = SelOpt.yes
        · intro h2
          simp [pullStep, hsel] at h2
        · intro h2
          simp only [pullStep, hsel]
          exact ⟨hf, hs⟩
      · exact fun _ => ⟨hf, hs⟩
      · exact fun _ => ⟨hf, hs⟩
    · cases ok <;> exact fun _ => ⟨hf, hs⟩
  · rcases ev with _ | k | ok
    · intro h2
      simp [pullStep] at h2
    · cases k <;> (intro h2; simp [pullStep] at h2)
    · cases ok <;> (intro h2; simp [pullStep] at h2)
  · rcases ev with _ | k | ok
    · intro h2
      simp [pullStep] at h2
    · cases k <;> (intro h2; simp [pullStep] at h2)
    · cases ok <;> (intro h2; simp [pullStep] at h2)
  · rcases ev with _ | k | ok
    · intro h2
      simp [pullStep] at h2
    · cases k <;> (intro h2; simp [pullStep] at h2)
    · cases ok <;> (intro h2; simp [pullStep] at h2)
  · obtain ⟨hf, hs⟩ := hst (Or.inr (Or.inr rfl))
    rcases ev with _ | k | ok
    · exact fun _ => ⟨hf, hs⟩
    · cases k <;> exact fun _ => ⟨hf, hs⟩
    · cases ok <;> exact fun _ => ⟨hf, hs⟩

theorem runPull_noAction_frame {α : Type} (r : PullResult) (saveFn : α → α) (f0 : α)
    (events : List PullEvent) :
    (runPull r saveFn f0 events).phase = .noAction →
    (runPull r saveFn f0 events).file = f0 ∧ (runPull r saveFn f0 events).saves = 0 := by
  have H : ∀ st : PullMachine α,
      ((st.phase = .checking ∨ st.phase = .confirming ∨ st.phase = .noAction) →
        st.file = f0 ∧ st.saves = 0) →
      ((events.foldl (pullStep r saveFn) st).phase = .checking ∨
        (events.foldl (pullStep r saveFn) st).phase = .confirming ∨
        (events.foldl (pullStep r saveFn) st).phase = .noAction) →
      (events.foldl (pullStep r saveFn) st).file = f0 ∧
        (events.foldl (pullStep r saveFn) st).saves = 0 := by
    induction events with
    | nil => exact fun st hst => hst
    | cons e es ih => exact fun st hst => ih _ (pullStep_frame r saveFn f0 st e hst)
  intro h
  exact H _ (fun _ => ⟨rfl, rfl⟩) (Or.inr (Or.inr h))

/-- C6: in the pull flow, a `behind` or `conflict` analysis always demands
confirmation; a decline (selecting no and pressing return, or pressing
escape or q) from the confirming phase moves to no-action without touching
the config store; and every run of the machine that ends in the no-action
phase leaves the store contents unchanged with the save-schema operation
never invoked. -/
theorem pull_confirmAndDeclineUntouched (cfg : LocalConfig) (rem : Schema) (api : Api)
    {α : Type} (saveFn : α → α) (f0 : α) (events : List PullEvent) :
    (((analyzePullAction cfg rem (compareVersions cfg.schema rem) api).status = .behind ∨
        (analyzePullAction cfg rem (compareVersions cfg.schema rem) api).status = .conflict) →
      (analyzePullAction cfg rem (compareVersions cfg.schema rem) api).needsConfirmation
        = true) ∧
    (∀ st : PullMachine α, st.phase = .confirming →
      ∀ d : KeyEvent, (d = .escape ∨ d = .qKey ∨ (d = .ret ∧ st.selected = .no)) →
        (pullStep (analyzePullAction cfg rem (compareVersions cfg.schema rem) api) saveFn st
            (.key d)).phase = .noAction ∧
        (pullStep (analyzePullAction cfg rem (compareVersions cfg.schema rem) api) saveFn st
            (.key d)).file = st.file ∧
        (pullStep (analyzePullAction cfg rem (compareVersions cfg.schema rem) api) saveFn st
            (.key d)).saves = st.saves) ∧
    ((runPull (analyzePullAction cfg rem (compareVersions cfg.schema rem) api) saveFn f0
        events).phase = .noAction →
      (runPull (analyzePullAction cfg rem (compareVersions cfg.schema rem) api) saveFn f0
          events).file = f0 ∧
      (runPull (analyzePullAction cfg rem (compareVersions cfg.schema rem) api) saveFn f0
          events).saves = 0) := by
  refine ⟨fun h => (pull_needsConfirmation_iff cfg rem _ api).2 h, ?_,
    runPull_noAction_frame _ _ _ _⟩
  rintro ⟨ph, sel, f, sv⟩ hph d hd
  cases hph
  rcases hd with h1 | h1 | ⟨h1, h2⟩
  · subst h1
    simp [pullStep]
  · subst h1
    simp [pullStep]
  · subst h1
    cases h2
    simp [pullStep]

/-- Witness for C6: a behind pair (local version 1, remote version 2) where
the user toggles to no and presses return: the run ends in no-action with the
store contents (a counter model) unchanged and zero saves. -/
theorem pull_declineUntouched_witness :
    (runPull (analyzePullAction (cfgAt 1) (schemaAt 2)
        (compareVersions (cfgAt 1).schema (schemaAt 2)) apiAllOk)
      (fun n : Nat => n + 1) 0 [.checked, .key .upArrow, .key .ret]).file = 0 ∧
    (runPull (analyzePullAction (cfgAt 1) (schemaAt 2)
        (compareVersions (cfgAt 1).schema (schemaAt 2)) apiAllOk)
      (fun n : Nat => n + 1) 0 [.checked, .key .upArrow, .key .ret]).saves = 0 :=
  (pull_confirmAndDeclineUntouched (cfgAt 1) (schemaAt 2) apiAllOk
    (fun n : Nat => n + 1) 0 [.checked, .key .upArrow, .key .ret]).2.2 (by decide)

/-! ### String-level model of the config-file accessor

`readSchemaFromConfig`, `extractSchemaFromCode`, `saveSchemaToConfig`,
`updateSchemaInCode` and `generateConfigContent` of `src/lib/schema.ts`
operate on file contents.  File contents are modelled as `List Char`.
`JSON.stringify(x, null, 2)` is modelled exactly (two-space indentation,
JSON string escaping, integers in decimal).  `JSON.parse` and the Babel
object-literal extraction are modelled by a recursive-descent parser over
the literal fragment actually exercised by the tool (double-quoted strings,
integers, booleans, null, arrays, objects with double-quoted keys, with
whitespace between tokens); inputs outside this fragment are conservatively
rejected. -/

/-- Whitespace characters recognised between tokens (the subset of JavaScript
`\s` occurring in the files under study). -/
def isWsChar (c : Char) : Bool :=
  c = ' ' || c = '\n' || c = '\t' || c = '\r'

/-- Skip whitespace. -/
def skipWs (cs : List Char) : List Char :=
  cs.dropWhile isWsChar

/-- Decimal digit character for `n < 10`. -/
def digitChar (n : Nat) : Char :=
  Char.ofNat (48 + n)

/-- Lowercase hexadecimal digit character for `n < 16`, as produced by the
`\u00XX` escapes of `JSON.stringify`. -/
def hexDigitChar (n : Nat) : Char :=
  if n < 10 then digitChar n else Char.ofNat (87 + n)

/-- Decimal digits of `n`, most significant first (`fuel`-bounded helper;
any `fuel > n` gives the exact digits). -/
def natToCharsAux : Nat → Nat → List Char
  | 0, _ => []
  | fuel + 1, n =>
    if n < 10 then [digitChar n]
    else natToCharsAux fuel (n / 10) ++ [digitChar (n % 10)]

/-- Decimal digits of a natural number. -/
def natToChars (n : Nat) : List Char :=
  natToCharsAux (n + 1) n

/-- JavaScript decimal rendering of an integer (the `JSON.stringify` output
for the integral numbers modelled here). -/
def intToChars (n : Int) : List Char :=
  if n < 0 then '-' :: natToChars n.natAbs else natToChars n.natAbs

/-- JSON string escaping of one character, exactly as `JSON.stringify` does:
quote and backslash get a backslash, the five named control escapes are used
where they exist, all other control characters become `\u00XX`, everything
else is copied verbatim. -/
def escapeChar (c : Char) : List Char :=
  if c = '"' then ['\\', '"']
  else if c = '\\' then ['\\', '\\']
  else if c = '\x08' then ['\\', 'b']
  else if c = '\t' then ['\\', 't']
  else if c = '\n' then ['\\', 'n']
  else if c = '\x0c' then ['\\', 'f']
  else if c = '\r' then ['\\', 'r']
  else if c.toNat < 32 then
    ['\\', 'u', '0', '0', hexDigitChar (c.toNat / 16), hexDigitChar (c.toNat % 16)]
  else [c]

/-- JSON string escaping of a character list. -/
def escapeString : List Char → List Char
  | [] => []
  | c :: cs => escapeChar c ++ escapeString cs

/-- A JSON string literal: quote, escaped body, quote. -/
def quoteString (s : List Char) : List Char :=
  '"' :: (escapeString s ++ ['"'])

/-- `i` spaces of indentation. -/
def indentChars (i : Nat) : List Char :=
  List.replicate i ' '

mutual

/-- `JSON.stringify(v, null, 2)` at indentation level `i`: the exact textual
output of the pretty-printer used by `updateSchemaInCode` and
`generateConfigContent`. -/
def stringifyAt (i : Nat) : JsVal → List Char
  | .null => ("null").data
  | .bool true => ("true").data
  | .bool false => ("false").data
  | .num n => intToChars n
  | .str s => quoteString s
  | .arr [] => ['[', ']']
  | .arr (x :: xs) =>
    '[' :: '\n' :: (stringifyElems (i + 2) (x :: xs) ++
      '\n' :: (indentChars i ++ [']']))
  | .obj [] => ['{', '}']
  | .obj (kv :: kvs) =>
    '{' :: '\n' :: (stringifyFields (i + 2) (kv :: kvs) ++
      '\n' :: (indentChars i ++ ['}']))

/-- Array elements, one per line at indentation `i`, separated by commas. -/
def stringifyElems (i : Nat) : List JsVal → List Char
  | [] => []
  | [x] => indentChars i ++ stringifyAt i x
  | x :: y :: xs =>
    indentChars i ++ (stringifyAt i x ++ ',' :: '\n' :: stringifyElems i (y :: xs))

/-- Object members, one `"key": value` per line at indentation `i`,
separated by commas. -/
def stringifyFields (i : Nat) : List (List Char × JsVal) → List Char
  | [] => []
  | [(k, v)] => indentChars i ++ (quoteString k ++ ':' :: ' ' :: stringifyAt i v)
  | (k, v) :: kv :: kvs =>
    indentChars i ++ (quoteString k ++ ':' :: ' ' ::
      (stringifyAt i v ++ ',' :: '\n' :: stringifyFields i (kv :: kvs)))

end

/-- `generateConfigContent` of `src/lib/schema.ts`: the template used to
create a brand-new `basic.config.ts`. -/
def generateConfigContent (schema : JsVal) : List Char :=
  ("// Basic Project Configuration\n" ++
   "// see the docs for more info: https://docs.basic.tech\n\n" ++
   "const schema = ").data ++
  stringifyAt 0 schema ++
  (";\n\nexport default schema;\n").data

/-- Decimal digit test (the character-code range of `0`-`9`). -/
def isDigitChar (c : Char) : Bool :=
  48 ≤ c.toNat && c.toNat ≤ 57

/-- Strip a literal character sequence from the front of the input. -/
def dropLit : List Char → List Char → Option (List Char)
  | [], cs => some cs
  | _ :: _, [] => none
  | p :: ps, c :: cs => if c = p then dropLit ps cs else none

/-- Accumulate decimal digits; stops at the first non-digit. -/
def parseDigitsAcc : List Char → Nat → Nat × List Char
  | [], acc => (acc, [])
  | c :: cs, acc =>
    if isDigitChar c then parseDigitsAcc cs (acc * 10 + (c.toNat - 48))
    else (acc, c :: cs)

/-- Parse a nonempty run of decimal digits. -/
def parseNatNum : List Char → Option (Nat × List Char)
  | [] => none
  | c :: cs =>
    if isDigitChar c then some (parseDigitsAcc cs (c.toNat - 48)) else none

/-- Value of a hexadecimal digit character. -/
def hexVal (c : Char) : Option Nat :=
  if isDigitChar c then some (c.toNat - 48)
  else if 97 ≤ c.toNat && c.toNat ≤ 102 then some (c.toNat - 87)
  else if 65 ≤ c.toNat && c.toNat ≤ 70 then some (c.toNat - 55)
  else none

/-- Parse the body of a JSON string literal after the opening quote, up to
and including the closing quote, resolving the JSON escapes. -/
def parseStrBody : List Char → Option (List Char × List Char)
  | [] => none
  | c :: rest =>
    if c = '"' then some ([], rest)
    else if c = '\\' then
      match rest with
      | [] => none
      | e :: rest2 =>
        if e = '"' then (parseStrBody rest2).map (fun p => ('"' :: p.1, p.2))
        else if e = '\\' then (parseStrBody rest2).map (fun p => ('\\' :: p.1, p.2))
        else if e = '/' then (parseStrBody rest2).map (fun p => ('/' :: p.1, p.2))
        else if e = 'n' then (parseStrBody rest2).map (fun p => ('\n' :: p.1, p.2))
        else if e = 't' then (parseStrBody rest2).map (fun p => ('\t' :: p.1, p.2))
        else if e = 'r' then (parseStrBody rest2).map (fun p => ('\r' :: p.1, p.2))
        else if e = 'b' then (parseStrBody rest2).map (fun p => ('\x08' :: p.1, p.2))
        else if e = 'f' then (parseStrBody rest2).map (fun p => ('\x0c' :: p.1, p.2))
        else if e = 'u' then
          match rest2 with
          | h1 :: h2 :: h3 :: h4 :: rest3 =>
            match hexVal h1, hexVal h2, hexVal h3, hexVal h4 with
            | some a, some b, some c2, some d =>
              (parseStrBody rest3).map
                (fun p => (Char.ofNat (((a * 16 + b) * 16 + c2) * 16 + d) :: p.1, p.2))
            | _, _, _, _ => none
          | _ => none
        else none
    else (parseStrBody rest).map (fun p => (c :: p.1, p.2))

mutual

/-- Recursive-descent parser for the JSON/object-literal fragment: skips
leading whitespace, then dispatches on the first character.  `fuel` bounds
the nesting; any fuel exceeding the printed length of the value suffices. -/
def parseVal : Nat → List Char → Option (JsVal × List Char)
  | 0, _ => none
  | fuel + 1, cs =>
    match skipWs cs with
    | [] => none
    | c :: r =>
      if c = '{' then
        match skipWs r with
        | c2 :: r2 =>
          if c2 = '}' then some (.obj [], r2)
          else (parseMembers fuel r).map (fun p => (JsVal.obj p.1, p.2))
        | [] => none
      else if c = '[' then
        match skipWs r with
        | c2 :: r2 =>
          if c2 = ']' then some (.arr [], r2)
          else (parseElems fuel r).map (fun p => (JsVal.arr p.1, p.2))
        | [] => none
      else if c = '"' then
        (parseStrBody r).map (fun p => (JsVal.str p.1, p.2))
      else if c = 'n' then
        (dropLit ['u', 'l', 'l'] r).map (fun r2 => (JsVal.null, r2))
      else if c = 't' then
        (dropLit ['r', 'u', 'e'] r).map (fun r2 => (JsVal.bool true, r2))
      else if c = 'f' then
        (dropLit ['a', 'l', 's', 'e'] r).map (fun r2 => (JsVal.bool false, r2))
      else if c = '-' then
        (parseNatNum r).map (fun p => (JsVal.num (-(p.1 : Int)), p.2))
      else if isDigitChar c then
        (parseNatNum (c :: r)).map (fun p => (JsVal.num (p.1 : Int), p.2))
      else none

/-- Parse one or more `"key": value` members followed by the closing brace. -/
def parseMembers : Nat → List Char → Option (List (List Char × JsVal) × List Char)
  | 0, _ => none
  | fuel + 1, cs =>
    match skipWs cs with
    | c :: r =>
      if c = '"' then
        match parseStrBody r with
        | some (k, r2) =>
          match skipWs r2 with
          | c3 :: r3 =>
            if c3 = ':' then
              match parseVal fuel r3 with
              | some (v, r4) =>
                match skipWs r4 with
                | c5 :: r5 =>
                  if c5 = ',' then
                    (parseMembers fuel r5).map (fun p => ((k, v) :: p.1, p.2))
                  else if c5 = '}' then some ([(k, v)], r5)
                  else none
                | [] => none
              | none => none
            else none
          | [] => none
        | none => none
      else none
    | [] => none

/-- Parse one or more array elements followed by the closing bracket. -/
def parseElems : Nat → List Char → Option (List JsVal × List Char)
  | 0, _ => none
  | fuel + 1, cs =>
    match parseVal fuel cs with
    | some (v, r) =>
      match skipWs r with
      | c2 :: r2 =>
        if c2 = ',' then (parseElems fuel r2).map (fun p => (v :: p.1, p.2))
        else if c2 = ']' then some ([v], r2)
        else none
      | [] => none
    | none => none

end

/-- Model of `JSON.parse` on the fragment above: the whole input must be one
literal followed only by whitespace. -/
def jsonParse (content : List Char) : Except String JsVal :=
  match parseVal (content.length + 1) content with
  | some (v, rest) =>
    if skipWs rest = [] then .ok v else .error "Unexpected non-whitespace character after JSON data"
  | none => .error "Unexpected token in JSON"

mutual

/-- Skip whitespace and `//` line comments between top-level tokens. -/
def skipTrivia : List Char → List Char
  | [] => []
  | c :: cs =>
    if isWsChar c then skipTrivia cs
    else if c = '/' then
      match cs with
      | '/' :: cs2 => skipLine cs2
      | _ => c :: cs
    else c :: cs

/-- Skip to the end of a `//` comment, then resume trivia skipping. -/
def skipLine : List Char → List Char
  | [] => []
  | c :: cs => if c = '\n' then skipTrivia cs else skipLine cs

end

/-- Identifier-continuation characters (used for keyword boundaries). -/
def isIdentChar (c : Char) : Bool :=
  c.isAlpha || c.isDigit || c = '_' || c = '$'

/-- Strip a keyword, requiring it not to be followed by an identifier
character. -/
def dropKeyword (kw : List Char) (cs : List Char) : Option (List Char) :=
  match dropLit kw cs with
  | some rest =>
    match rest with
    | [] => some []
    | c :: _ => if isIdentChar c then none else some rest
  | none => none

/-- The top-level statement forms recognised by the restricted config
grammar, mirroring the AST shapes `extractSchemaFromCode` dispatches on:
a `const schema = ...;` declaration, an `export const schema = ...;`
declaration, an `export default schema;` reference, and an inline
`export default <literal>;`. -/
inductive ConfigStmt where
  | constSchema (v : JsVal)
  | exportConstSchema (v : JsVal)
  | exportDefaultSchemaRef
  | exportDefaultLit (v : JsVal)

/-- Parse `schema = <literal> ;` after `const` / `export const`. -/
def parseSchemaAssign (exported : Bool) (cs : List Char) :
    Option (ConfigStmt × List Char) :=
  match dropKeyword ['s', 'c', 'h', 'e', 'm', 'a'] (skipTrivia cs) with
  | some r1 =>
    match skipTrivia r1 with
    | c :: r2 =>
      if c = '=' then
        match parseVal (r2.length + 1) r2 with
        | some (v, r3) =>
          match skipTrivia r3 with
          | c2 :: r4 =>
            if c2 = ';' then
              some (if exported then .exportConstSchema v else .constSchema v, r4)
            else none
          | [] => none
        | none => none
      else none
    | [] => none
  | none => none

/-- Parse one top-level statement of the restricted config grammar (input
already trivia-skipped). -/
def parseStmt (cs : List Char) : Option (ConfigStmt × List Char) :=
  match dropKeyword ['e', 'x', 'p', 'o', 'r', 't'] cs with
  | some r1 =>
    let r1' := skipTrivia r1
    match dropKeyword ['c', 'o', 'n', 's', 't'] r1' with
    | some r2 => parseSchemaAssign true r2
    | none =>
      match dropKeyword ['d', 'e', 'f', 'a', 'u', 'l', 't'] r1' with
      | some r3 =>
        let r3' := skipTrivia r3
        match dropKeyword ['s', 'c', 'h', 'e', 'm', 'a'] r3' with
        | some r4 =>
          match skipTrivia r4 with
          | c :: r5 => if c = ';' then some (.exportDefaultSchemaRef, r5) else none
          | [] => none
        | none =>
          match parseVal (r3'.length + 1) r3' with
          | some (v, r4) =>
            match skipTrivia r4 with
            | c :: r5 => if c = ';' then some (.exportDefaultLit v, r5) else none
            | [] => none
          | none => none
      | none => none
  | none =>
    match dropKeyword ['c', 'o', 'n', 's', 't'] cs with
    | some r1 => parseSchemaAssign false r1
    | none => none

/-- Parse a whole config source as a list of statements. -/
def parseStmts : Nat → List Char → Option (List ConfigStmt)
  | 0, _ => none
  | fuel + 1, cs =>
    match skipTrivia cs with
    | [] => some []
    | c :: r =>
      match parseStmt (c :: r) with
      | some (st, rest) => (parseStmts fuel rest).map (st :: ·)
      | none => none

/-- Step 1 of the extraction: the last `export const schema = ...`
declaration wins (the source's `forEach` overwrites `schemaNode` on every
match). -/
def lastExportConstSchema (stmts : List ConfigStmt) : Option JsVal :=
  stmts.foldl
    (fun acc st =>
      match st with
      | .exportConstSchema v => some v
      | _ => acc)
    none

/-- The first plain `const schema = ...` declaration (the source's
`Array.find` over `VariableDeclaration` nodes; `export const` declarations
are `ExportNamedDeclaration` nodes and are not found by it). -/
def firstConstSchema : List ConfigStmt → Option JsVal
  | [] => none
  | .constSchema v :: _ => some v
  | _ :: rest => firstConstSchema rest

/-- Step 2 of the extraction: a `forEach` over the statements that, for
`export default schema`, resolves the first `const schema` declaration, and
for an inline `export default <object literal>` takes the literal; later
matches overwrite earlier ones, and a non-object inline default assigns
nothing. -/
def defaultExportNode (stmts : List ConfigStmt) : Option JsVal :=
  stmts.foldl
    (fun acc st =>
      match st with
      | .exportDefaultSchemaRef =>
        match firstConstSchema stmts with
        | some v => some v
        | none => acc
      | .exportDefaultLit (JsVal.obj fields) => some (JsVal.obj fields)
      | _ => acc)
    none

/-- The structural validation at the end of `extractSchemaFromCode`
(`src/lib/schema.ts` lines 139-147): a truthy string `project_id`, a number
`version`, and a truthy object-typed `tables`. -/
def validateSchemaFields (v : JsVal) : Except String JsVal :=
  let pid := v.getProp "project_id".data
  if !(jsTruthy pid) || !(jsTypeofString pid) then
    .error "Schema must have a project_id string field"
  else if !(jsTypeofNumber (v.getProp "version".data)) then
    .error "Schema must have a version number field"
  else
    let tables := v.getProp "tables".data
    if !(jsTruthy tables) || !(jsTypeofObject tables) then
      .error "Schema must have a tables object field"
    else .ok v

/-- `extractSchemaFromCode` of `src/lib/schema.ts`: parse the source, pick
the schema node (named export first, then default export), require an
object literal, convert and validate.  Every failure message is wrapped by
the source's catch as `Error parsing schema: ...`. -/
def extractSchemaFromCode (content : List Char) : Except String JsVal :=
  match parseStmts (content.length + 1) content with
  | none => .error "Error parsing schema: Unexpected token"
  | some stmts =>
    let node :=
      match lastExportConstSchema stmts with
      | some v => some v
      | none => defaultExportNode stmts
    match node with
    | some (JsVal.obj fields) =>
      match validateSchemaFields (JsVal.obj fields) with
      | .ok v => .ok v
      | .error m => .error ("Error parsing schema: " ++ m)
    | _ => .error "Error parsing schema: Schema export must be an object"

/-- The local directory as seen through the three canonical config
filenames, in the priority order of `readSchemaFromConfig`. -/
structure ConfigDir where
  ts : Option (List Char)
  js : Option (List Char)
  json : Option (List Char)

/-- Result of `readSchemaFromConfig`: the parsed schema value, the
`project_id` value (the source stores `schema.project_id` unchecked), and
the file it came from. -/
structure SchemaFileResult where
  schema : JsVal
  projectId : JsVal
  filePath : String

/-- The per-file body of the `readSchemaFromConfig` loop: parse (JSON
directly for `.json`, extraction for code files), then require a truthy
`project_id`; every failure is wrapped as `Error reading <file>: ...`. -/
def tryReadFile (filename : String) (content : List Char) (isJson : Bool) :
    Except String SchemaFileResult :=
  let parsed : Except String JsVal :=
    if isJson then jsonParse content else extractSchemaFromCode content
  match parsed with
  | .error m => .error ("Error reading " ++ filename ++ ": " ++ m)
  | .ok schema =>
    if jsTruthy (schema.getProp "project_id".data) then
      .ok { schema := schema,
            projectId := (schema.getProp "project_id".data).getD JsVal.null,
            filePath := filename }
    else .error ("Error reading " ++ filename ++ ": No project_id found in schema")

/-- `readSchemaFromConfig` of `src/lib/schema.ts`: try `basic.config.ts`,
`basic.config.js`, `basic.config.json` in order, skipping missing files;
return `none` only when no config file exists. -/
def readSchemaFromConfig (dir : ConfigDir) : Except String (Option SchemaFileResult) :=
  match dir.ts with
  | some c => (tryReadFile "basic.config.ts" c false).map some
  | none =>
    match dir.js with
    | some c => (tryReadFile "basic.config.js" c false).map some
    | none =>
      match dir.json with
      | some c => (tryReadFile "basic.config.json" c true).map some
      | none => .ok none

/-! ### The three update patterns of `updateSchemaInCode`

The source tests, in order, the regexes
`(const\s+schema\s*=\s*)(\{[^;]+\})(;)`,
`(export\s+const\s+schema\s*=\s*)(\{[^;]+\})(;)` and
`(schema\s*=\s*)(\{[^;]+\})(;)` (each with the `g` flag), replacing every
match of the first one that tests positive by `$1<stringified schema>$3`.
Because `\s+`/`\s*` are followed by non-whitespace literals and `[^;]+`
cannot cross a semicolon, matching is deterministic: the body matches
exactly when the first `;` after the opening brace is immediately preceded
by `}` with a nonempty interior.  The matchers below return the text of
group 1 and the rest of the input after the matched `;`. -/

/-- Match `\{[^;]+\};` at the head of the input; returns the rest after the
semicolon. -/
def matchBody (cs : List Char) : Option (List Char) :=
  match cs with
  | c :: rest =>
    if c = '{' then
      let upto := rest.takeWhile (fun d => !(d = ';'))
      match rest.dropWhile (fun d => !(d = ';')) with
      | _ :: rest2 =>
        match upto.getLast? with
        | some e => if e = '}' && 2 ≤ upto.length then some rest2 else none
        | none => none
      | [] => none
    else none
  | [] => none

/-- Match `schema\s*=\s*\{[^;]+\};` at the head of the input. -/
def matchAtP3 (cs : List Char) : Option (List Char × List Char) :=
  match dropLit ['s', 'c', 'h', 'e', 'm', 'a'] cs with
  | some r1 =>
    let ws1 := r1.takeWhile isWsChar
    match r1.dropWhile isWsChar with
    | c :: r2 =>
      if c = '=' then
        let ws2 := r2.takeWhile isWsChar
        match matchBody (r2.dropWhile isWsChar) with
        | some rest => some (['s', 'c', 'h', 'e', 'm', 'a'] ++ ws1 ++ '=' :: ws2, rest)
        | none => none
      else none
    | [] => none
  | none => none

/-- Match `const\s+schema\s*=\s*\{[^;]+\};` at the head of the input. -/
def matchAtP1 (cs : List Char) : Option (List Char × List Char) :=
  match dropLit ['c', 'o', 'n', 's', 't'] cs with
  | some r1 =>
    let ws1 := r1.takeWhile isWsChar
    if ws1 = [] then none
    else
      match matchAtP3 (r1.dropWhile isWsChar) with
      | some (g1, rest) => some (['c', 'o', 'n', 's', 't'] ++ ws1 ++ g1, rest)
      | none => none
  | none => none

/-- Match `export\s+const\s+schema\s*=\s*\{[^;]+\};` at the head of the
input. -/
def matchAtP2 (cs : List Char) : Option (List Char × List Char) :=
  match dropLit ['e', 'x', 'p', 'o', 'r', 't'] cs with
  | some r1 =>
    let ws1 := r1.takeWhile isWsChar
    if ws1 = [] then none
    else
      match matchAtP1 (r1.dropWhile isWsChar) with
      | some (g1, rest) => some (['e', 'x', 'p', 'o', 'r', 't'] ++ ws1 ++ g1, rest)
      | none => none
  | none => none

/-- The three patterns, in the order the source tries them. -/
inductive PatKind where
  | p1
  | p2
  | p3
deriving DecidableEq, Repr

/-- Dispatch to the matcher of a pattern. -/
def matchAtPat : PatKind → List Char → Option (List Char × List Char)
  | .p1, cs => matchAtP1 cs
  | .p2, cs => matchAtP2 cs
  | .p3, cs => matchAtP3 cs

/-- `pattern.test(content)`: does the pattern match at some position? -/
def findPat (pat : PatKind) : List Char → Bool
  | [] => false
  | c :: cs => (matchAtPat pat (c :: cs)).isSome || findPat pat cs

/-- `content.replace(pattern, ...)` with the `g` flag: scan left to right,
replacing every match by group 1, the new schema text and the semicolon. -/
def replaceAllPat (pat : PatKind) (newJson : List Char) : Nat → List Char → List Char
  | 0, cs => cs
  | _, [] => []
  | fuel + 1, c :: cs =>
    match matchAtPat pat (c :: cs) with
    | some (g1, rest) => g1 ++ newJson ++ ';' :: replaceAllPat pat newJson fuel rest
    | none => c :: replaceAllPat pat newJson fuel cs

/-- `updateSchemaInCode` of `src/lib/schema.ts`: stringify the new schema
and substitute it through the first pattern that matches; throw when none
does. -/
def updateSchemaInCode (content : List Char) (newSchema : JsVal) :
    Except String (List Char) :=
  let schemaStr := stringifyAt 0 newSchema
  if findPat .p1 content then
    .ok (replaceAllPat .p1 schemaStr (content.length + 1) content)
  else if findPat .p2 content then
    .ok (replaceAllPat .p2 schemaStr (content.length + 1) content)
  else if findPat .p3 content then
    .ok (replaceAllPat .p3 schemaStr (content.length + 1) content)
  else .error "Could not update schema in config file"

/-- `saveSchemaToConfig` of `src/lib/schema.ts`: re-read the directory; on
an existing config file, substitute the schema region in its content and
write it back; otherwise create a fresh `basic.config.ts` from the
template.  Returns the written path and the new directory state. -/
def saveSchemaToConfig (schema : JsVal) (dir : ConfigDir) :
    Except String (String × ConfigDir) :=
  match readSchemaFromConfig dir with
  | .error m => .error m
  | .ok (some existing) =>
    let content :=
      match dir.ts with
      | some c => c
      | none =>
        match dir.js with
        | some c => c
        | none => (dir.json).getD []
    match updateSchemaInCode content schema with
    | .ok updated =>
      let dirNew :=
        match dir.ts with
        | some _ => { dir with ts := some updated }
        | none =>
          match dir.js with
          | some _ => { dir with js := some updated }
          | none => { dir with json := some updated }
      .ok (existing.filePath, dirNew)
    | .error m => .error m
  | .ok none =>
    .ok ("basic.config.ts", { dir with ts := some (generateConfigContent schema) })

/-! ### Lemmas: whitespace skipping and parser primitives -/

theorem charNe_of_toNat {c d : Char} (h : c.toNat ≠ d.toNat) : c ≠ d :=
  fun he => h (congrArg Char.toNat he)

theorem isWsChar_eq_false {c : Char} (h32 : c.toNat ≠ 32) (h10 : c.toNat ≠ 10)
    (h9 : c.toNat ≠ 9) (h13 : c.toNat ≠ 13) : isWsChar c = false := by
  have a1 : c ≠ ' ' := charNe_of_toNat h32
  have a2 : c ≠ '\n' := charNe_of_toNat h10
  have a3 : c ≠ '\t' := charNe_of_toNat h9
  have a4 : c ≠ '\r' := charNe_of_toNat h13
  simp [isWsChar, a1, a2, a3, a4]

theorem skipWs_cons_ws {c : Char} (h : isWsChar c = true) (cs : List Char) :
    skipWs (c :: cs) = skipWs cs := by
  simp [skipWs, List.dropWhile_cons, h]

theorem skipWs_cons_not {c : Char} (h : isWsChar c = false) (cs : List Char) :
    skipWs (c :: cs) = c :: cs := by
  simp [skipWs, List.dropWhile_cons, h]

theorem skipWs_ws_append {a : List Char} (h : ∀ c ∈ a, isWsChar c = true)
    (b : List Char) : skipWs (a ++ b) = skipWs b := by
  induction a with
  | nil => rfl
  | cons c cs ih =>
    rw [List.cons_append, skipWs_cons_ws (h c (by simp))]
    exact ih (fun d hd => h d (by simp [hd]))

theorem skipWs_indent (i : Nat) (b : List Char) :
    skipWs (indentChars i ++ b) = skipWs b :=
  skipWs_ws_append
    (fun c hc => by
      have := List.eq_of_mem_replicate hc
      simp [this, isWsChar])
    b

theorem parseVal_ws {cs cs2 : List Char} (h : skipWs cs = skipWs cs2) (fuel : Nat) :
    parseVal fuel cs = parseVal fuel cs2 := by
  cases fuel with
  | zero => rfl
  | succ n => simp only [parseVal, h]

theorem parseMembers_ws {cs cs2 : List Char} (h : skipWs cs = skipWs cs2) (fuel : Nat) :
    parseMembers fuel cs = parseMembers fuel cs2 := by
  cases fuel with
  | zero => rfl
  | succ n => simp only [parseMembers, h]

theorem dropLit_self (l rest : List Char) : dropLit l (l ++ rest) = some rest := by
  induction l with
  | nil => rfl
  | cons c cs ih => simp [dropLit, ih]

theorem digitChar_toNat {n : Nat} (h : n < 10) : (digitChar n).toNat = 48 + n := by
  unfold digitChar
  interval_cases n <;> decide

theorem isDigitChar_digitChar {n : Nat} (h : n < 10) : isDigitChar (digitChar n) = true := by
  unfold isDigitChar digitChar
  interval_cases n <;> decide

theorem natToCharsAux_digits {fuel n : Nat} (h : n < fuel) :
    ∀ c ∈ natToCharsAux fuel n, isDigitChar c = true := by
  induction fuel generalizing n with
  | zero => omega
  | succ fuel ih =>
    intro c hc
    rw [natToCharsAux] at hc
    by_cases h10 : n < 10
    · simp [h10] at hc
      simp [hc, isDigitChar_digitChar h10]
    · simp [h10] at hc
      rcases hc with hc | hc
      · exact ih (by omega) c hc
      · simp [hc, isDigitChar_digitChar (Nat.mod_lt n (by omega))]

theorem natToCharsAux_ne_nil {fuel n : Nat} (h : n < fuel) :
    natToCharsAux fuel n ≠ [] := by
  cases fuel with
  | zero => omega
  | succ fuel =>
    rw [natToCharsAux]
    by_cases h10 : n < 10 <;> simp [h10]

theorem parseDigitsAcc_append {ds : List Char} (h : ∀ c ∈ ds, isDigitChar c = true)
    {rest : List Char}
    (hrest : ∀ c, rest.head? = some c → isDigitChar c = false) (acc : Nat) :
    parseDigitsAcc (ds ++ rest) acc =
      (ds.foldl (fun a c => a * 10 + (c.toNat - 48)) acc, rest) := by
  induction ds generalizing acc with
  | nil =>
    cases rest with
    | nil => rfl
    | cons c cs =>
      have hc := hrest c rfl
      simp [parseDigitsAcc, hc]
  | cons c cs ih =>
    have hc := h c (by simp)
    simp only [List.cons_append, parseDigitsAcc, hc, if_true, List.foldl_cons]
    exact ih (fun d hd => h d (by simp [hd])) _

theorem foldl_natToCharsAux {fuel n : Nat} (h : n < fuel) (acc : Nat) :
    (natToCharsAux fuel n).foldl (fun a c => a * 10 + (c.toNat - 48)) acc =
      acc * 10 ^ (natToCharsAux fuel n).length + n := by
  induction fuel generalizing n acc with
  | zero => omega
  | succ fuel ih =>
    rw [natToCharsAux]
    by_cases h10 : n < 10
    · simp [h10, List.foldl_cons, digitChar_toNat h10]
    · have hdiv : n / 10 < fuel := by omega
      simp only [h10, if_false, List.foldl_append, List.foldl_cons, List.foldl_nil,
        List.length_append, List.length_cons, List.length_nil, ih hdiv]
      rw [digitChar_toNat (Nat.mod_lt n (by omega))]
      have h48 : 48 + n % 10 - 48 = n % 10 := by omega
      rw [h48]
      have hnm : n / 10 * 10 + n % 10 = n := by omega
      generalize (natToCharsAux fuel (n / 10)).length = L
      rw [pow_succ]
      conv_rhs => rw [← hnm]
      ring

theorem parseNatNum_natToChars (n : Nat) {rest : List Char}
    (hrest : ∀ c, rest.head? = some c → isDigitChar c = false) :
    parseNatNum (natToChars n ++ rest) = some (n, rest) := by
  unfold natToChars
  have hlt : n < n + 1 := Nat.lt_succ_self n
  rcases hcons : natToCharsAux (n + 1) n with _ | ⟨c, ds⟩
  · exact absurd hcons (natToCharsAux_ne_nil hlt)
  · have hdigs := natToCharsAux_digits hlt
    rw [hcons] at hdigs
    have hc : isDigitChar c = true := hdigs c (by simp)
    have hds : ∀ d ∈ ds, isDigitChar d = true := fun d hd => hdigs d (by simp [hd])
    simp only [List.cons_append, parseNatNum, hc, if_true]
    rw [parseDigitsAcc_append hds hrest]
    have hfold := foldl_natToCharsAux hlt 0
    rw [hcons] at hfold
    simp only [List.foldl_cons] at hfold
    simp only [Nat.zero_mul, Nat.zero_add] at hfold
    rw [hfold]

theorem hexVal_hexDigitChar {n : Nat} (h : n < 16) : hexVal (hexDigitChar n) = some n := by
  unfold hexVal hexDigitChar isDigitChar digitChar
  interval_cases n <;> decide

theorem parseStrBody_escape (s rest : List Char) :
    parseStrBody (escapeString s ++ '"' :: rest) = some (s, rest) := by
  induction s with
  | nil =>
    rw [parseStrBody.eq_def]
    simp [escapeString]
  | cons c cs ih =>
    show parseStrBody ((escapeChar c ++ escapeString cs) ++ '"' :: rest) = _
    rw [List.append_assoc]
    unfold escapeChar
    by_cases h1 : c = '"'
    · subst h1
      rw [if_pos rfl, List.cons_append, List.cons_append, List.nil_append,
        parseStrBody.eq_def]
      simp [ih]
    by_cases h2 : c = '\\'
    · subst h2
      rw [if_neg h1, if_pos rfl, List.cons_append, List.cons_append, List.nil_append,
        parseStrBody.eq_def]
      simp [ih]
    by_cases h3 : c = '\x08'
    · subst h3
      rw [if_neg h1, if_neg h2, if_pos rfl, List.cons_append, List.cons_append,
        List.nil_append, parseStrBody.eq_def]
      simp [ih]
    by_cases h4 : c = '\t'
    · subst h4
      rw [if_neg h1, if_neg h2, if_neg h3, if_pos rfl, List.cons_append, List.cons_append,
        List.nil_append, parseStrBody.eq_def]
      simp [ih]
    by_cases h5 : c = '\n'
    · subst h5
      rw [if_neg h1, if_neg h2, if_neg h3, if_neg h4, if_pos rfl, List.cons_append,
        List.cons_append, List.nil_append, parseStrBody.eq_def]
      simp [ih]
    by_cases h6 : c = '\x0c'
    · subst h6
      rw [if_neg h1, if_neg h2, if_neg h3, if_neg h4, if_neg h5, if_pos rfl,
        List.cons_append, List.cons_append, List.nil_append, parseStrBody.eq_def]
      simp [ih]
    by_cases h7 : c = '\r'
    · subst h7
      rw [if_neg h1, if_neg h2, if_neg h3, if_neg h4, if_neg h5, if_neg h6, if_pos rfl,
        List.cons_append, List.cons_append, List.nil_append, parseStrBody.eq_def]
      simp [ih]
    by_cases h8 : c.toNat < 32
    · rw [if_neg h1, if_neg h2, if_neg h3, if_neg h4, if_neg h5, if_neg h6, if_neg h7,
        if_pos h8]
      have ha : hexVal (hexDigitChar (c.toNat / 16)) = some (c.toNat / 16) :=
        hexVal_hexDigitChar (by omega)
      have hb : hexVal (hexDigitChar (c.toNat % 16)) = some (c.toNat % 16) :=
        hexVal_hexDigitChar (by omega)
      have h0 : hexVal '0' = some 0 := by decide
      have hval : ((0 * 16 + 0) * 16 + c.toNat / 16) * 16 + c.toNat % 16 = c.toNat := by
        omega
      rw [List.cons_append, List.cons_append, List.cons_append, List.cons_append,
        List.cons_append, List.cons_append, List.nil_append, parseStrBody.eq_def]
      simp [h0, ha, hb, ih, hval, Char.ofNat_toNat]
      have hv2 : c.toNat / 16 * 16 + c.toNat % 16 = c.toNat := by omega
      rw [hv2, Char.ofNat_toNat]
    · rw [if_neg h1, if_neg h2, if_neg h3, if_neg h4, if_neg h5, if_neg h6, if_neg h7,
        if_neg h8, List.cons_append, List.nil_append, parseStrBody.eq_def]
      simp [h1, h2, ih]

/-- The first character of a printed value: never whitespace and never a
closing delimiter, a comma or a semicolon. -/
theorem stringify_head (v : JsVal) (i : Nat) :
    ∃ c t, stringifyAt i v = c :: t ∧ isWsChar c = false ∧
      c ≠ ']' ∧ c ≠ '}' ∧ c ≠ ',' ∧ c ≠ ';' := by
  cases v with
  | null => exact ⟨'n', _, rfl, by decide, by decide, by decide, by decide, by decide⟩
  | bool b =>
    cases b with
    | true => exact ⟨'t', _, rfl, by decide, by decide, by decide, by decide, by decide⟩
    | false => exact ⟨'f', _, rfl, by decide, by decide, by decide, by decide, by decide⟩
  | num n =>
    unfold stringifyAt intToChars
    by_cases hn : n < 0
    · exact ⟨'-', natToChars n.natAbs, by simp [hn], by decide, by decide, by decide,
        by decide, by decide⟩
    · simp only [hn, if_false]
      unfold natToChars
      rcases hcons : natToCharsAux (n.natAbs + 1) n.natAbs with _ | ⟨c, t⟩
      · exact absurd hcons (natToCharsAux_ne_nil (Nat.lt_succ_self _))
      · have hd : isDigitChar c = true := by
          have := natToCharsAux_digits (Nat.lt_succ_self n.natAbs)
          rw [hcons] at this
          exact this c (by simp)
        have hrange : 48 ≤ c.toNat ∧ c.toNat ≤ 57 := by
          unfold isDigitChar at hd
          simp at hd
          omega
        refine ⟨c, t, rfl, ?_, ?_, ?_, ?_, ?_⟩
        · exact isWsChar_eq_false (by omega) (by omega) (by omega) (by omega)
        · exact charNe_of_toNat (by show c.toNat ≠ 93; omega)
        · exact charNe_of_toNat (by show c.toNat ≠ 125; omega)
        · exact charNe_of_toNat (by show c.toNat ≠ 44; omega)
        · exact charNe_of_toNat (by show c.toNat ≠ 59; omega)
  | str s => exact ⟨'"', _, rfl, by decide, by decide, by decide, by decide, by decide⟩
  | arr xs =>
    cases xs with
    | nil => exact ⟨'[', _, rfl, by decide, by decide, by decide, by decide, by decide⟩
    | cons x xs => exact ⟨'[', _, rfl, by decide, by decide, by decide, by decide, by decide⟩
  | obj kvs =>
    cases kvs with
    | nil => exact ⟨'{', _, rfl, by decide, by decide, by decide, by decide, by decide⟩
    | cons kv kvs => exact ⟨'{', _, rfl, by decide, by decide, by decide, by decide, by decide⟩

theorem parseElems_ws {cs cs2 : List Char} (h : skipWs cs = skipWs cs2) (fuel : Nat) :
    parseElems fuel cs = parseElems fuel cs2 := by
  cases fuel with
  | zero => rfl
  | succ n => simp only [parseElems, parseVal_ws h]

theorem stringifyElems_cons_shape (i : Nat) (x : JsVal) (xs : List JsVal) :
    ∃ T, stringifyElems i (x :: xs) = indentChars i ++ (stringifyAt i x ++ T) := by
  cases xs with
  | nil => exact ⟨[], by simp [stringifyElems]⟩
  | cons y ys =>
    exact ⟨',' :: '\n' :: stringifyElems i (y :: ys), by simp [stringifyElems]⟩

theorem stringifyFields_cons_shape (i : Nat) (k : List Char) (v : JsVal)
    (kvs : List (List Char × JsVal)) :
    ∃ T, stringifyFields i ((k, v) :: kvs) =
      indentChars i ++ ('"' :: (escapeString k ++ '"' :: (':' :: ' ' ::
        (stringifyAt i v ++ T)))) := by
  cases kvs with
  | nil =>
    refine ⟨[], ?_⟩
    simp [stringifyFields, quoteString]
  | cons kv2 kvs2 =>
    refine ⟨',' :: '\n' :: stringifyFields i (kv2 :: kvs2), ?_⟩
    simp [stringifyFields, quoteString]

/-- What follows the first printed member: nothing for a singleton, else a
comma, a newline and the remaining members. -/
def fieldsTailChars (i : Nat) : List (List Char × JsVal) → List Char
  | [] => []
  | kv :: kvs => ',' :: '\n' :: stringifyFields i (kv :: kvs)

/-- What follows the first printed element: nothing for a singleton, else a
comma, a newline and the remaining elements. -/
def elemsTailChars (i : Nat) : List JsVal → List Char
  | [] => []
  | x :: xs => ',' :: '\n' :: stringifyElems i (x :: xs)

theorem stringifyFields_cons_eq (i : Nat) (k : List Char) (v : JsVal)
    (kvs : List (List Char × JsVal)) :
    stringifyFields i ((k, v) :: kvs) =
      indentChars i ++ ('"' :: (escapeString k ++ '"' :: (':' :: ' ' ::
        (stringifyAt i v ++ fieldsTailChars i kvs)))) := by
  cases kvs with
  | nil => simp [stringifyFields, fieldsTailChars, quoteString]
  | cons kv2 kvs2 => simp [stringifyFields, fieldsTailChars, quoteString]

theorem stringifyElems_cons_eq (i : Nat) (x : JsVal) (xs : List JsVal) :
    stringifyElems i (x :: xs) =
      indentChars i ++ (stringifyAt i x ++ elemsTailChars i xs) := by
  cases xs with
  | nil => simp [stringifyElems, elemsTailChars]
  | cons y ys => simp [stringifyElems, elemsTailChars]

theorem parseMembers_succ_eq (f : Nat) (cs : List Char) :
    parseMembers (f + 1) cs =
      match skipWs cs with
      | c :: r =>
        if c = '"' then
          match parseStrBody r with
          | some (k, r2) =>
            match skipWs r2 with
            | c3 :: r3 =>
              if c3 = ':' then
                match parseVal f r3 with
                | some (v, r4) =>
                  match skipWs r4 with
                  | c5 :: r5 =>
                    if c5 = ',' then
                      (parseMembers f r5).map (fun p => ((k, v) :: p.1, p.2))
                    else if c5 = '}' then some ([(k, v)], r5)
                    else none
                  | [] => none
                | none => none
              else none
            | [] => none
          | none => none
        else none
      | [] => none := rfl

theorem parseElems_succ_eq (f : Nat) (cs : List Char) :
    parseElems (f + 1) cs =
      match parseVal f cs with
      | some (v, r) =>
        match skipWs r with
        | c2 :: r2 =>
          if c2 = ',' then (parseElems f r2).map (fun p => (v :: p.1, p.2))
          else if c2 = ']' then some ([v], r2)
          else none
        | [] => none
      | none => none := rfl

/-- The joint printer-parser inverse: a printed value parses back exactly,
for any fuel exceeding the printed length; likewise for printed object
members and array elements followed by their closing lines. -/
theorem parse_print (fuel : Nat) :
    (∀ (v : JsVal) (i : Nat) (rest : List Char),
      (stringifyAt i v).length < fuel →
      (∀ c, rest.head? = some c → isDigitChar c = false) →
      parseVal fuel (stringifyAt i v ++ rest) = some (v, rest)) ∧
    (∀ (kvs : List (List Char × JsVal)) (i j : Nat) (rest : List Char),
      kvs ≠ [] → (stringifyFields i kvs).length + 1 < fuel →
      parseMembers fuel
          (stringifyFields i kvs ++ '\n' :: (indentChars j ++ '}' :: rest)) =
        some (kvs, rest)) ∧
    (∀ (xs : List JsVal) (i j : Nat) (rest : List Char),
      xs ≠ [] → (stringifyElems i xs).length + 1 < fuel →
      parseElems fuel
          (stringifyElems i xs ++ '\n' :: (indentChars j ++ ']' :: rest)) =
        some (xs, rest)) := by
  induction fuel using Nat.strong_induction_on with
  | _ fuel ih =>
  rcases fuel with _ | f
  · refine ⟨?_, ?_, ?_⟩
    · intro v i rest hlen _
      omega
    · intro kvs i j rest _ hlen
      omega
    · intro xs i j rest _ hlen
      omega
  have ihv := (ih f (Nat.lt_succ_self f)).1
  have ihm := (ih f (Nat.lt_succ_self f)).2.1
  have ihe := (ih f (Nat.lt_succ_self f)).2.2
  refine ⟨?_, ?_, ?_⟩
  · intro v i rest hlen hrest
    cases v with
    | null =>
      show parseVal (f + 1) ('n' :: 'u' :: 'l' :: 'l' :: rest) = _
      rw [parseVal.eq_def]
      simp [skipWs, List.dropWhile_cons, isWsChar, dropLit]
    | bool b =>
      cases b with
      | false =>
        show parseVal (f + 1) ('f' :: 'a' :: 'l' :: 's' :: 'e' :: rest) = _
        rw [parseVal.eq_def]
        simp [skipWs, List.dropWhile_cons, isWsChar, dropLit]
      | true =>
        show parseVal (f + 1) ('t' :: 'r' :: 'u' :: 'e' :: rest) = _
        rw [parseVal.eq_def]
        simp [skipWs, List.dropWhile_cons, isWsChar, dropLit]
    | num n =>
      show parseVal (f + 1) (intToChars n ++ rest) = _
      unfold intToChars
      by_cases hn : n < 0
      · simp only [hn, if_true]
        have hnum := parseNatNum_natToChars n.natAbs hrest
        rw [List.cons_append, parseVal.eq_def]
        simp [skipWs, List.dropWhile_cons, isWsChar, hnum]
        rw [abs_of_neg hn]
        ring
      · simp only [hn, if_false]
        rcases hcons : natToChars n.natAbs with _ | ⟨c, t⟩
        · exact absurd hcons (natToCharsAux_ne_nil (Nat.lt_succ_self _))
        · have hd : isDigitChar c = true := by
            have := natToCharsAux_digits (Nat.lt_succ_self n.natAbs)
            unfold natToChars at hcons
            rw [hcons] at this
            exact this c (by simp)
          have hrange : 48 ≤ c.toNat ∧ c.toNat ≤ 57 := by
            unfold isDigitChar at hd
            simp at hd
            omega
          have hws : isWsChar c = false :=
            isWsChar_eq_false (by omega) (by omega) (by omega) (by omega)
          have hb1 : ¬ c = '{' := charNe_of_toNat (by show c.toNat ≠ 123; omega)
          have hb2 : ¬ c = '[' := charNe_of_toNat (by show c.toNat ≠ 91; omega)
          have hb3 : ¬ c = '"' := charNe_of_toNat (by show c.toNat ≠ 34; omega)
          have hb4 : ¬ c = 'n' := charNe_of_toNat (by show c.toNat ≠ 110; omega)
          have hb5 : ¬ c = 't' := charNe_of_toNat (by show c.toNat ≠ 116; omega)
          have hb6 : ¬ c = 'f' := charNe_of_toNat (by show c.toNat ≠ 102; omega)
          have hb7 : ¬ c = '-' := charNe_of_toNat (by show c.toNat ≠ 45; omega)
          have hnum := parseNatNum_natToChars n.natAbs hrest
          rw [hcons] at hnum
          rw [List.cons_append, parseVal.eq_def]
          simp [skipWs, List.dropWhile_cons, hws, hb1, hb2, hb3, hb4, hb5, hb6, hb7,
            hd, hnum]
          exact ⟨n.natAbs, hnum, by omega⟩
    | str s =>
      show parseVal (f + 1) (('"' :: (escapeString s ++ ['"'])) ++ rest) = _
      rw [List.cons_append, List.append_assoc, List.singleton_append, parseVal.eq_def]
      simp [skipWs, List.dropWhile_cons, isWsChar, parseStrBody_escape]
    | arr xs =>
      rcases xs with _ | ⟨x, xs⟩
      · show parseVal (f + 1) ('[' :: ']' :: rest) = _
        rw [parseVal.eq_def]
        simp [skipWs, List.dropWhile_cons, isWsChar]
      · obtain ⟨T, hE⟩ := stringifyElems_cons_shape (i + 2) x xs
        obtain ⟨c0, t0, hx, hws0, hc1, hc2, hc3, hc4⟩ := stringify_head x (i + 2)
        have hlenE : (stringifyElems (i + 2) (x :: xs)).length + 1 < f := by
          have h0 : stringifyAt i (JsVal.arr (x :: xs)) =
              '[' :: '\n' :: (stringifyElems (i + 2) (x :: xs) ++
                '\n' :: (indentChars i ++ [']'])) := rfl
          rw [h0] at hlen
          simp [indentChars] at hlen
          omega
        show parseVal (f + 1)
          (('[' :: '\n' :: (stringifyElems (i + 2) (x :: xs) ++
            '\n' :: (indentChars i ++ [']']))) ++ rest) = _
        rw [List.cons_append, List.cons_append, List.append_assoc, List.cons_append,
          List.append_assoc, List.singleton_append]
        have hskipr : skipWs (stringifyElems (i + 2) (x :: xs) ++
            '\n' :: (indentChars i ++ ']' :: rest)) =
            c0 :: (t0 ++ (T ++ '\n' :: (indentChars i ++ ']' :: rest))) := by
          rw [hE, List.append_assoc, skipWs_indent, List.append_assoc, hx,
            List.cons_append, skipWs_cons_not hws0]
        have helems := ihe (x :: xs) (i + 2) i rest (by simp) hlenE
        have helems2 : parseElems f ('\n' :: (stringifyElems (i + 2) (x :: xs) ++
            '\n' :: (indentChars i ++ ']' :: rest))) = some (x :: xs, rest) := by
          rw [parseElems_ws (skipWs_cons_ws (by decide) _) f]
          exact helems
        rw [parseVal.eq_def]
        simp [skipWs, List.dropWhile_cons, isWsChar, helems2]
        simp only [skipWs] at hskipr
        rw [hskipr]
        simp [hc1]
    | obj kvs =>
      rcases kvs with _ | ⟨⟨k, v⟩, kvs⟩
      · show parseVal (f + 1) ('{' :: '}' :: rest) = _
        rw [parseVal.eq_def]
        simp [skipWs, List.dropWhile_cons, isWsChar]
      · obtain ⟨T, hF⟩ := stringifyFields_cons_shape (i + 2) k v kvs
        have hlenF : (stringifyFields (i + 2) ((k, v) :: kvs)).length + 1 < f := by
          have h0 : stringifyAt i (JsVal.obj ((k, v) :: kvs)) =
              '{' :: '\n' :: (stringifyFields (i + 2) ((k, v) :: kvs) ++
                '\n' :: (indentChars i ++ ['}'])) := rfl
          rw [h0] at hlen
          simp [indentChars] at hlen
          omega
        show parseVal (f + 1)
          (('{' :: '\n' :: (stringifyFields (i + 2) ((k, v) :: kvs) ++
            '\n' :: (indentChars i ++ ['}']))) ++ rest) = _
        rw [List.cons_append, List.cons_append, List.append_assoc, List.cons_append,
          List.append_assoc, List.singleton_append]
        have hskipr : skipWs (stringifyFields (i + 2) ((k, v) :: kvs) ++
            '\n' :: (indentChars i ++ '}' :: rest)) =
            '"' :: ((escapeString k ++ '"' :: (':' :: ' ' :: (stringifyAt (i + 2) v ++ T))) ++
              '\n' :: (indentChars i ++ '}' :: rest)) := by
          rw [hF, List.append_assoc, skipWs_indent, List.cons_append,
            skipWs_cons_not (by decide)]
        have hmem := ihm ((k, v) :: kvs) (i + 2) i rest (by simp) hlenF
        have hmem2 : parseMembers f ('\n' :: (stringifyFields (i + 2) ((k, v) :: kvs) ++
            '\n' :: (indentChars i ++ '}' :: rest))) = some ((k, v) :: kvs, rest) := by
          rw [parseMembers_ws (skipWs_cons_ws (by decide) _) f]
          exact hmem
        rw [parseVal.eq_def]
        simp [skipWs, List.dropWhile_cons, isWsChar, hmem2]
        simp only [skipWs] at hskipr
        rw [hskipr]
        simp
  · intro kvs i j rest hne hlen
    rcases kvs with _ | ⟨⟨k, v⟩, kvs⟩
    · exact absurd rfl hne
    rw [stringifyFields_cons_eq] at hlen ⊢
    rw [List.append_assoc, List.cons_append, List.append_assoc, List.cons_append,
      List.cons_append, List.cons_append, List.append_assoc]
    rcases kvs with _ | ⟨kv2, kvs2⟩
    · simp only [fieldsTailChars, List.append_nil, List.nil_append] at hlen ⊢
      have hlenv : (stringifyAt i v).length < f := by
        simp [indentChars] at hlen
        omega
      have h1 : skipWs (indentChars i ++ '"' :: (escapeString k ++ '"' :: ':' :: ' ' ::
          (stringifyAt i v ++ '\n' :: (indentChars j ++ '}' :: rest)))) =
          '"' :: (escapeString k ++ '"' :: ':' :: ' ' ::
            (stringifyAt i v ++ '\n' :: (indentChars j ++ '}' :: rest))) := by
        rw [skipWs_indent]
        exact skipWs_cons_not (by decide) _
      have h2 : parseStrBody (escapeString k ++ '"' :: ':' :: ' ' ::
          (stringifyAt i v ++ '\n' :: (indentChars j ++ '}' :: rest))) =
          some (k, ':' :: ' ' :: (stringifyAt i v ++ '\n' ::
            (indentChars j ++ '}' :: rest))) := parseStrBody_escape k _
      have h3 : skipWs (':' :: ' ' :: (stringifyAt i v ++ '\n' ::
          (indentChars j ++ '}' :: rest))) = ':' :: ' ' :: (stringifyAt i v ++ '\n' ::
            (indentChars j ++ '}' :: rest)) := skipWs_cons_not (by decide) _
      have h4 : parseVal f (' ' :: (stringifyAt i v ++ '\n' ::
          (indentChars j ++ '}' :: rest))) =
          some (v, '\n' :: (indentChars j ++ '}' :: rest)) := by
        rw [parseVal_ws (skipWs_cons_ws (by decide) _) f]
        exact ihv v i _ hlenv (by intro c hc; cases hc; decide)
      have h5 : skipWs ('\n' :: (indentChars j ++ '}' :: rest)) = '}' :: rest := by
        rw [skipWs_cons_ws (by decide), skipWs_indent]
        exact skipWs_cons_not (by decide) _
      rw [parseMembers_succ_eq, h1]
      simp [h2, h3, h4, h5]
    · simp only [fieldsTailChars] at hlen ⊢
      rw [List.cons_append, List.cons_append]
      have hlenv : (stringifyAt i v).length < f := by
        simp [indentChars] at hlen
        omega
      have hlenF2 : (stringifyFields i (kv2 :: kvs2)).length + 1 < f := by
        simp [indentChars] at hlen
        omega
      have h1 : skipWs (indentChars i ++ '"' :: (escapeString k ++ '"' :: ':' :: ' ' ::
          (stringifyAt i v ++ ',' :: '\n' :: (stringifyFields i (kv2 :: kvs2) ++
            '\n' :: (indentChars j ++ '}' :: rest))))) =
          '"' :: (escapeString k ++ '"' :: ':' :: ' ' ::
            (stringifyAt i v ++ ',' :: '\n' :: (stringifyFields i (kv2 :: kvs2) ++
              '\n' :: (indentChars j ++ '}' :: rest)))) := by
        rw [skipWs_indent]
        exact skipWs_cons_not (by decide) _
      have h2 : parseStrBody (escapeString k ++ '"' :: ':' :: ' ' ::
          (stringifyAt i v ++ ',' :: '\n' :: (stringifyFields i (kv2 :: kvs2) ++
            '\n' :: (indentChars j ++ '}' :: rest)))) =
          some (k, ':' :: ' ' :: (stringifyAt i v ++ ',' :: '\n' ::
            (stringifyFields i (kv2 :: kvs2) ++ '\n' ::
              (indentChars j ++ '}' :: rest)))) := parseStrBody_escape k _
      have h3 : skipWs (':' :: ' ' :: (stringifyAt i v ++ ',' :: '\n' ::
          (stringifyFields i (kv2 :: kvs2) ++ '\n' :: (indentChars j ++ '}' :: rest)))) =
          ':' :: ' ' :: (stringifyAt i v ++ ',' :: '\n' ::
            (stringifyFields i (kv2 :: kvs2) ++ '\n' ::
              (indentChars j ++ '}' :: rest))) := skipWs_cons_not (by decide) _
      have h4 : parseVal f (' ' :: (stringifyAt i v ++ ',' :: '\n' ::
          (stringifyFields i (kv2 :: kvs2) ++ '\n' :: (indentChars j ++ '}' :: rest)))) =
          some (v, ',' :: '\n' :: (stringifyFields i (kv2 :: kvs2) ++ '\n' ::
            (indentChars j ++ '}' :: rest))) := by
        rw [parseVal_ws (skipWs_cons_ws (by decide) _) f]
        exact ihv v i _ hlenv (by intro c hc; cases hc; decide)
      have h5 : skipWs (',' :: '\n' :: (stringifyFields i (kv2 :: kvs2) ++ '\n' ::
          (indentChars j ++ '}' :: rest))) = ',' :: '\n' ::
            (stringifyFields i (kv2 :: kvs2) ++ '\n' ::
              (indentChars j ++ '}' :: rest)) := skipWs_cons_not (by decide) _
      have h6 : parseMembers f ('\n' :: (stringifyFields i (kv2 :: kvs2) ++ '\n' ::
          (indentChars j ++ '}' :: rest))) = some (kv2 :: kvs2, rest) := by
        rw [parseMembers_ws (skipWs_cons_ws (by decide) _) f]
        exact ihm (kv2 :: kvs2) i j rest (by simp) hlenF2
      rw [parseMembers_succ_eq, h1]
      simp [h2, h3, h4, h5, h6]
  · intro xs i j rest hne hlen
    rcases xs with _ | ⟨x, xs⟩
    · exact absurd rfl hne
    rw [stringifyElems_cons_eq] at hlen ⊢
    rw [List.append_assoc, List.append_assoc]
    rcases xs with _ | ⟨y, ys⟩
    · simp only [elemsTailChars, List.append_nil, List.nil_append] at hlen ⊢
      have hlenv : (stringifyAt i x).length < f := by
        simp [indentChars] at hlen
        omega
      have h4 : parseVal f (indentChars i ++ (stringifyAt i x ++ '\n' ::
          (indentChars j ++ ']' :: rest))) =
          some (x, '\n' :: (indentChars j ++ ']' :: rest)) := by
        rw [parseVal_ws (skipWs_indent i _) f]
        exact ihv x i _ hlenv (by intro c hc; cases hc; decide)
      have h5 : skipWs ('\n' :: (indentChars j ++ ']' :: rest)) = ']' :: rest := by
        rw [skipWs_cons_ws (by decide), skipWs_indent]
        exact skipWs_cons_not (by decide) _
      rw [parseElems_succ_eq, h4]
      simp [h5]
    · simp only [elemsTailChars] at hlen ⊢
      rw [List.cons_append, List.cons_append]
      have hlenv : (stringifyAt i x).length < f := by
        simp [indentChars] at hlen
        omega
      have hlenE2 : (stringifyElems i (y :: ys)).length + 1 < f := by
        simp [indentChars] at hlen
        omega
      have h4 : parseVal f (indentChars i ++ (stringifyAt i x ++ ',' :: '\n' ::
          (stringifyElems i (y :: ys) ++ '\n' :: (indentChars j ++ ']' :: rest)))) =
          some (x, ',' :: '\n' :: (stringifyElems i (y :: ys) ++ '\n' ::
            (indentChars j ++ ']' :: rest))) := by
        rw [parseVal_ws (skipWs_indent i _) f]
        exact ihv x i _ hlenv (by intro c hc; cases hc; decide)
      have h5 : skipWs (',' :: '\n' :: (stringifyElems i (y :: ys) ++ '\n' ::
          (indentChars j ++ ']' :: rest))) = ',' :: '\n' ::
            (stringifyElems i (y :: ys) ++ '\n' ::
              (indentChars j ++ ']' :: rest)) := skipWs_cons_not (by decide) _
      have h6 : parseElems f ('\n' :: (stringifyElems i (y :: ys) ++ '\n' ::
          (indentChars j ++ ']' :: rest))) = some (y :: ys, rest) := by
        rw [parseElems_ws (skipWs_cons_ws (by decide) _) f]
        exact ihe (y :: ys) i j rest (by simp) hlenE2
      rw [parseElems_succ_eq, h4]
      simp [h5, h6]

/-! ### The generated config file parses back to the saved schema -/

theorem parseStmts_succ_eq (f : Nat) (cs : List Char) :
    parseStmts (f + 1) cs =
      match skipTrivia cs with
      | [] => some []
      | c :: r =>
        match parseStmt (c :: r) with
        | some (st, rest) => (parseStmts f rest).map (st :: ·)
        | none => none := rfl

theorem skipTrivia_header (X : List Char) :
    skipTrivia (("// Basic Project Configuration\n" ++
      "// see the docs for more info: https://docs.basic.tech\n\n" ++
      "const schema = ").data ++ X) =
      'c' :: 'o' :: 'n' :: 's' :: 't' :: ' ' :: 's' :: 'c' :: 'h' :: 'e' :: 'm' :: 'a' ::
        ' ' :: '=' :: ' ' :: X := rfl

theorem generateConfigContent_eq (v : JsVal) :
    generateConfigContent v =
      ("// Basic Project Configuration\n" ++
        "// see the docs for more info: https://docs.basic.tech\n\n" ++
        "const schema = ").data ++
      (stringifyAt 0 v ++ (";\n\nexport default schema;\n").data) := by
  simp [generateConfigContent, List.append_assoc]

theorem parseVal_print_tail (v : JsVal) (f : Nat)
    (hf : (stringifyAt 0 v).length < f) :
    parseVal f (' ' :: (stringifyAt 0 v ++ (";\n\nexport default schema;\n").data)) =
      some (v, (";\n\nexport default schema;\n").data) := by
  rw [parseVal_ws (skipWs_cons_ws (by decide) _) f]
  refine (parse_print f).1 v 0 _ hf ?_
  intro c hc
  rw [show ((";\n\nexport default schema;\n").data).head? = some ';' from rfl] at hc
  cases hc
  rfl

theorem parseStmt_constPrefix (v : JsVal) (X r T2 : List Char)
    (hpv : parseVal ((' ' :: X).length + 1) (' ' :: X) = some (v, r))
    (hr : skipTrivia r = ';' :: T2) :
    parseStmt ('c' :: 'o' :: 'n' :: 's' :: 't' :: ' ' :: 's' :: 'c' :: 'h' :: 'e' :: 'm' ::
        'a' :: ' ' :: '=' :: ' ' :: X) = some (ConfigStmt.constSchema v, T2) := by
  show (match parseVal ((' ' :: X).length + 1) (' ' :: X) with
    | some (v2, r3) =>
      match skipTrivia r3 with
      | c2 :: r4 => if c2 = ';' then some (ConfigStmt.constSchema v2, r4) else none
      | [] => none
    | none => none) = some (ConfigStmt.constSchema v, T2)
  rw [hpv]
  simp [hr]

theorem parseStmts_tail (g : Nat) :
    parseStmts (g + 2) (("\n\nexport default schema;\n").data) =
      some [ConfigStmt.exportDefaultSchemaRef] := by
  have h3 : parseStmts (g + 1) ['\n'] = some [] := by
    rw [parseStmts_succ_eq]
    rfl
  show (parseStmts (g + 1) ['\n']).map (ConfigStmt.exportDefaultSchemaRef :: ·) =
    some [ConfigStmt.exportDefaultSchemaRef]
  rw [h3]
  rfl

theorem extract_generate (fields : List (List Char × JsVal))
    (hval : validateSchemaFields (JsVal.obj fields) = Except.ok (JsVal.obj fields)) :
    extractSchemaFromCode (generateConfigContent (JsVal.obj fields)) =
      Except.ok (JsVal.obj fields) := by
  have hgen := generateConfigContent_eq (JsVal.obj fields)
  have hlen26 : (((";\n\nexport default schema;\n").data)).length = 26 := rfl
  have hpv := parseVal_print_tail (JsVal.obj fields)
      ((' ' :: (stringifyAt 0 (JsVal.obj fields) ++
        (";\n\nexport default schema;\n").data)).length + 1)
      (by simp [List.length_append, hlen26]; omega)
  have hstmt := parseStmt_constPrefix (JsVal.obj fields)
      (stringifyAt 0 (JsVal.obj fields) ++ (";\n\nexport default schema;\n").data)
      ((";\n\nexport default schema;\n").data)
      (("\n\nexport default schema;\n").data) hpv rfl
  have hL : 2 ≤ (generateConfigContent (JsVal.obj fields)).length := by
    rw [hgen, List.length_append]
    have h : 2 ≤ (("// Basic Project Configuration\n" ++
        "// see the docs for more info: https://docs.basic.tech\n\n" ++
        "const schema = ").data).length := by decide
    omega
  obtain ⟨g, hg⟩ : ∃ g, (generateConfigContent (JsVal.obj fields)).length = g + 2 :=
    ⟨(generateConfigContent (JsVal.obj fields)).length - 2, by omega⟩
  have hstmts : parseStmts ((generateConfigContent (JsVal.obj fields)).length + 1)
      (generateConfigContent (JsVal.obj fields)) =
      some [ConfigStmt.constSchema (JsVal.obj fields),
        ConfigStmt.exportDefaultSchemaRef] := by
    rw [parseStmts_succ_eq]
    have hsk : skipTrivia (generateConfigContent (JsVal.obj fields)) =
        'c' :: 'o' :: 'n' :: 's' :: 't' :: ' ' :: 's' :: 'c' :: 'h' :: 'e' :: 'm' :: 'a' ::
          ' ' :: '=' :: ' ' :: (stringifyAt 0 (JsVal.obj fields) ++
            (";\n\nexport default schema;\n").data) := by
      rw [hgen]
      exact skipTrivia_header _
    rw [hsk]
    simp only [hstmt]
    rw [hg, parseStmts_tail]
    rfl
  simp only [extractSchemaFromCode]
  rw [hstmts]
  simp [lastExportConstSchema, defaultExportNode, firstConstSchema, hval]

/-- Destructing a successful `validateSchemaFields`: the value is returned
unchanged and all three structural guards hold. -/
theorem validateFields_ok (v w : JsVal) (h : validateSchemaFields v = Except.ok w) :
    w = v ∧ jsTruthy (v.getProp ("project_id").data) = true ∧
    jsTypeofString (v.getProp ("project_id").data) = true ∧
    jsTypeofNumber (v.getProp ("version").data) = true ∧
    jsTruthy (v.getProp ("tables").data) = true ∧
    jsTypeofObject (v.getProp ("tables").data) = true := by
  by_cases h1 : jsTruthy (v.getProp ("project_id").data) = true
  · by_cases h2 : jsTypeofString (v.getProp ("project_id").data) = true
    · by_cases h3 : jsTypeofNumber (v.getProp ("version").data) = true
      · by_cases h4 : jsTruthy (v.getProp ("tables").data) = true
        · by_cases h5 : jsTypeofObject (v.getProp ("tables").data) = true
          · simp [validateSchemaFields, h1, h2, h3, h4, h5] at h
            exact ⟨h.symm, h1, h2, h3, h4, h5⟩
          · simp [validateSchemaFields, h1, h2, h3, h4, h5] at h
        · simp [validateSchemaFields, h1, h2, h3, h4] at h
      · simp [validateSchemaFields, h1, h2, h3] at h
    · simp [validateSchemaFields, h1, h2] at h
  · simp [validateSchemaFields, h1] at h

/-! ### Concrete config fixtures -/

set_option maxRecDepth 10000

/-- A well-formed schema literal: string `project_id`, numeric `version`,
object `tables`. -/
def schemaLitFields : List (List Char × JsVal) :=
  [(("project_id").data, .str ("p1").data),
   (("version").data, .num 1),
   (("tables").data, .obj [])]

/-- The same schema as a value. -/
def schemaLit : JsVal := .obj schemaLitFields

/-- A `basic.config.json` content holding exactly `schemaLit`. -/
def jsonFix : List Char :=
  ("\x7b\"project_id\": \"p1\", \"version\": 1, \"tables\": \x7b\x7d\x7d").data

/-- A `basic.config.json` content whose `version` is the string `"abc"`. -/
def jsonBadVer : List Char :=
  ("\x7b\"project_id\": \"p1\", \"version\": \"abc\", \"tables\": \x7b\x7d\x7d").data

/-- The parsed value of `jsonBadVer`. -/
def schemaBadVer : JsVal :=
  .obj [(("project_id").data, .str ("p1").data),
        (("version").data, .str ("abc").data),
        (("tables").data, .obj [])]

/-- A `basic.config.json` content with no `project_id` at all. -/
def jsonNoPid : List Char := ("\x7b\"version\": 1\x7d").data

/-- A schema value with a `project_id` but no `version`. -/
def schemaNoVer : JsVal :=
  .obj [(("project_id").data, .str ("p1").data), (("tables").data, .obj [])]

/-- C8: in a directory with no config file, saving a well-formed schema
creates `basic.config.ts` from the template, and reading that directory back
returns exactly the saved schema (with its `project_id` and the `ts` path). -/
theorem saveThenRead_roundTrip (fields : List (List Char × JsVal))
    (hval : validateSchemaFields (JsVal.obj fields) = Except.ok (JsVal.obj fields)) :
    saveSchemaToConfig (JsVal.obj fields) ⟨none, none, none⟩ =
      Except.ok ("basic.config.ts",
        ⟨some (generateConfigContent (JsVal.obj fields)), none, none⟩) ∧
    readSchemaFromConfig ⟨some (generateConfigContent (JsVal.obj fields)), none, none⟩ =
      Except.ok (some ⟨JsVal.obj fields,
        ((JsVal.obj fields).getProp ("project_id").data).getD JsVal.null,
        "basic.config.ts"⟩) := by
  constructor
  · rfl
  · have hex := extract_generate fields hval
    have hpid := (validateFields_ok _ _ hval).2.1
    simp [readSchemaFromConfig, tryReadFile, hex, hpid]
    rfl

/-- The C8 round trip instantiated at `schemaLit` in an empty directory. -/
theorem saveThenRead_roundTrip_witness :
    validateSchemaFields schemaLit = Except.ok schemaLit ∧
    (saveSchemaToConfig schemaLit ⟨none, none, none⟩ =
        Except.ok ("basic.config.ts",
          ⟨some (generateConfigContent schemaLit), none, none⟩) ∧
      readSchemaFromConfig ⟨some (generateConfigContent schemaLit), none, none⟩ =
        Except.ok (some ⟨schemaLit,
          (schemaLit.getProp ("project_id").data).getD JsVal.null,
          "basic.config.ts"⟩)) :=
  ⟨rfl, saveThenRead_roundTrip schemaLitFields rfl⟩

/-- A well-formed schema saved into a directory whose only config file is a
readable `basic.config.json`: the save throws instead of round-tripping. -/
theorem saveRoundTrip_jsonConfig_cex :
    validateSchemaFields schemaLit = Except.ok schemaLit ∧
    readSchemaFromConfig ⟨none, none, some jsonFix⟩ =
      Except.ok (some ⟨schemaLit, JsVal.str ("p1").data, "basic.config.json"⟩) ∧
    saveSchemaToConfig schemaLit ⟨none, none, some jsonFix⟩ =
      Except.error "Could not update schema in config file" :=
  ⟨rfl, rfl, rfl⟩

/-- C9: structural failures of `readSchemaFromConfig`.  Code files (`.ts`,
`.js`) only ever extract schemas with a truthy string `project_id` and a
numeric `version`; a version that is not a number raises the specific
version message; a parsed `.json` config with a falsy `project_id` raises
the specific no-`project_id` error; and a `none` result occurs exactly for
the directory with no config file. -/
theorem readSchema_structuralErrors :
    (∀ (c : List Char) (v : JsVal), extractSchemaFromCode c = Except.ok v →
      jsTruthy (v.getProp ("project_id").data) = true ∧
      jsTypeofString (v.getProp ("project_id").data) = true ∧
      jsTypeofNumber (v.getProp ("version").data) = true) ∧
    (∀ (v : JsVal), jsTruthy (v.getProp ("project_id").data) = true →
      jsTypeofString (v.getProp ("project_id").data) = true →
      jsTypeofNumber (v.getProp ("version").data) = false →
      validateSchemaFields v = Except.error "Schema must have a version number field") ∧
    (∀ (content : List Char) (v : JsVal), jsonParse content = Except.ok v →
      jsTruthy (v.getProp ("project_id").data) = false →
      readSchemaFromConfig ⟨none, none, some content⟩ =
        Except.error "Error reading basic.config.json: No project_id found in schema") ∧
    (∀ (dir : ConfigDir), readSchemaFromConfig dir = Except.ok none →
      dir = ⟨none, none, none⟩) := by
  refine ⟨?_, ?_, ?_, ?_⟩
  · intro c v h
    unfold extractSchemaFromCode at h
    split at h
    · simp at h
    · simp only [] at h
      split at h
      · rename_i fields heq
        split at h
        · rename_i v2 hv
          obtain ⟨hw, h1, h2, h3, _, _⟩ := validateFields_ok _ _ hv
          subst hw
          simp at h
          rw [← h]
          exact ⟨h1, h2, h3⟩
        · simp at h
      · simp at h
  · intro v h1 h2 h3
    simp [validateSchemaFields, h1, h2, h3]
  · intro content v hp hpid
    simp [readSchemaFromConfig, tryReadFile, Except.map, hp, hpid]
  · intro dir h
    rcases dir with ⟨ts, js, jn⟩
    cases ts with
    | some c =>
      rcases htr : tryReadFile "basic.config.ts" c false with m | r <;>
        simp [readSchemaFromConfig, Except.map, htr] at h
    | none =>
      cases js with
      | some c =>
        rcases htr : tryReadFile "basic.config.js" c false with m | r <;>
          simp [readSchemaFromConfig, Except.map, htr] at h
      | none =>
        cases jn with
        | some c =>
          rcases htr : tryReadFile "basic.config.json" c true with m | r <;>
            simp [readSchemaFromConfig, Except.map, htr] at h
        | none => rfl

/-- The C9 errors at concrete inputs: a `.json` config with no `project_id`
raises the no-`project_id` error, and a schema without a numeric version
fails validation with the version message. -/
theorem readSchema_structuralErrors_witness :
    readSchemaFromConfig ⟨none, none, some jsonNoPid⟩ =
      Except.error "Error reading basic.config.json: No project_id found in schema" ∧
    validateSchemaFields schemaNoVer =
      Except.error "Schema must have a version number field" :=
  ⟨readSchema_structuralErrors.2.2.1 jsonNoPid (JsVal.obj [(("version").data, .num 1)])
      rfl rfl,
   readSchema_structuralErrors.2.1 schemaNoVer rfl rfl rfl⟩

/-- A `.json` config whose `version` is the string `"abc"` is read back
successfully: the `.json` path never checks the version type. -/
theorem readSchema_jsonVersion_cex :
    jsTypeofNumber (schemaBadVer.getProp ("version").data) = false ∧
    readSchemaFromConfig ⟨none, none, some jsonBadVer⟩ =
      Except.ok (some ⟨schemaBadVer, JsVal.str ("p1").data, "basic.config.json"⟩) :=
  ⟨rfl, rfl⟩

end BasicCli
